import Mathlib

/-!
Shallow embedding of the VK social-graph crawler (src/script.py) and proofs
about its traversal engine, store semantics, and entry point.

The Python program crawls VK breadth-first from a seed user
(`process_network`), writing User/Group nodes and FOLLOWS/SUBSCRIBED_TO
relationships to Neo4j.  The embedding below models:

* the VK API as an oracle of pure functions (`Api`), where `none` stands for
  a call whose Python result is falsy (transport error, API error payload, or
  absent data);
* the traversal loop of `process_network` as a fuel-indexed transition
  function over an explicit `LoopState` (queue, visited set, counters), which
  additionally records the sequence of store writes (`trace`) and of API
  requests (`fetches`) that the Python code performs by side effect;
* the Neo4j writes (`store_user`, `store_group`, `create_relationship`) as a
  deterministic small-step semantics on a `Store` value, including the
  label-free `MATCH (n {id: $id})` of `create_relationship`, which matches
  both the User and the Group node carrying a given id;
* the credential check and mode dispatch of `main`.
-/

namespace VKCrawl

/-- Raw VK user record as returned by users.get, with the fields requested by
fetch_user_info and fetch_followers_details in script.py.  Optional fields
(home_town, city.title) are modelled as the empty string when absent, which is
exactly the default `user_data.get(..., '')` used by store_user. -/
structure VKUser where
  id : Nat
  first_name : String
  last_name : String
  sex : Nat
  screen_name : String
  home_town : String
  city_title : String
deriving DecidableEq

/-- Raw VK group record as returned by groups.getById (fetch_group_details). -/
structure VKGroup where
  id : Nat
  name : String
  screen_name : String
deriving DecidableEq

/-- One entry of the users.getSubscriptions items list: its id and type tag. -/
structure SubItem where
  id : Nat
  type : String
deriving DecidableEq

/-- Attributes written on a :User node by store_user. -/
structure UserAttrs where
  screen_name : String
  name : String
  sex : Nat
  home_town : String
deriving DecidableEq

/-- Attributes written on a :Group node by store_group. -/
structure GroupAttrs where
  name : String
  screen_name : String
deriving DecidableEq

/-- Attribute computation of store_user: the stored name joins first and last
name with a space, and home_town falls back to city.title when the home_town
field is empty (Python: `user_data.get('home_town', '') or city`). -/
def userAttrsOf (u : VKUser) : UserAttrs :=
  { screen_name := u.screen_name
    name := u.first_name ++ " " ++ u.last_name
    sex := u.sex
    home_town := if u.home_town = "" then u.city_title else u.home_town }

/-- Attribute computation of store_group. -/
def groupAttrsOf (g : VKGroup) : GroupAttrs :=
  { name := g.name, screen_name := g.screen_name }

/-- Relationship types created by the script. -/
inductive RelType where
  | FOLLOWS
  | SUBSCRIBED_TO
deriving DecidableEq

/-- One write transaction issued by process_network, in program order. -/
inductive WriteOp where
  | storeUser (u : VKUser)
  | storeGroup (g : VKGroup)
  | createRel (fromId toId : Nat) (typ : RelType)
deriving DecidableEq

/-- One outbound VK API request issued by the traversal. -/
inductive FetchEvent where
  | userInfo (id : Nat)
  | followers (id : Nat)
  | followersDetails (ids : List Nat)
  | subscriptions (id : Nat)
  | groupDetails (ids : List Nat)
deriving DecidableEq

/-- The VK API as an oracle.  `none` models a call whose Python result is
falsy and is therefore skipped by the caller: a transport error, an
API-reported error (vk_api_call returns None), or an empty users.get list
(`if not user_info`), which is modelled by `some []`.  `followers` yields the
`items` list of the users.getFollowers response; a successful call with zero
followers is `some []` (the response dict itself is truthy). -/
structure Api where
  userInfo : Nat → Option (List VKUser)
  followers : Nat → Option (List Nat)
  followersDetails : List Nat → Option (List VKUser)
  subscriptions : Nat → Option (List SubItem)
  groupDetails : List Nat → Option (List VKGroup)

/-- State of the while-loop of process_network.  `queue`, `processed` and
`nodeCount` are the Python locals; `halted` records that the budget `break`
fired; `attempts` lists the items for which fetch_user_info was called (in
order, with their levels), `expanded` those whose detail fetch succeeded and
whose expansion therefore ran; `trace` is the sequence of Neo4j writes and
`fetches` the sequence of VK API calls performed so far. -/
structure LoopState where
  queue : List (Nat × Nat)
  processed : List Nat
  nodeCount : Nat
  halted : Bool
  attempts : List (Nat × Nat)
  expanded : List (Nat × Nat)
  trace : List WriteOp
  fetches : List FetchEvent
deriving DecidableEq

/-- Body of one iteration of the follower for-loop (lines 171-177): a
follower whose id is already in `processed` is skipped; otherwise it is
upserted, given a FOLLOWS edge follower -> current node, and enqueued at
level + 1.  The loop never modifies `processed`. -/
def followerStep (uid level : Nat) (acc : LoopState) (f : VKUser) : LoopState :=
  if f.id ∈ acc.processed then acc
  else { acc with
    trace := acc.trace ++
      [WriteOp.storeUser f, WriteOp.createRel f.id uid RelType.FOLLOWS]
    queue := acc.queue ++ [(f.id, level + 1)] }

/-- The followers block of process_network (lines 166-177): fetch the
follower ids, then their details in batch, and run the follower loop when
both calls are truthy (an empty details list makes the Python loop a no-op,
which coincides with folding over the empty list). -/
def followersPhase (api : Api) (uid level : Nat) (s0 : LoopState) : LoopState :=
  let s1 := { s0 with fetches := s0.fetches ++ [FetchEvent.followers uid] }
  match api.followers uid with
  | none => s1
  | some fids =>
    let s2 := { s1 with fetches := s1.fetches ++ [FetchEvent.followersDetails fids] }
    match api.followersDetails fids with
    | none => s2
    | some finfo => finfo.foldl (followerStep uid level) s2

/-- Ids of the subscription items whose type tag is "page" (line 181). -/
def pageIds (items : List SubItem) : List Nat :=
  (items.filter (fun it => it.type == "page")).map (fun it => it.id)

/-- Body of one iteration of the group for-loop (lines 185-190): a resolved
group whose id is already in `processed` is skipped; otherwise it is upserted
and given a SUBSCRIBED_TO edge current node -> group.  Nothing is ever added
to `processed`. -/
def groupStep (uid : Nat) (acc : LoopState) (g : VKGroup) : LoopState :=
  if g.id ∈ acc.processed then acc
  else { acc with
    trace := acc.trace ++
      [WriteOp.storeGroup g, WriteOp.createRel uid g.id RelType.SUBSCRIBED_TO] }

/-- The subscriptions block of process_network (lines 179-190): fetch the
subscription list, keep the page-typed ids, resolve them in batch when the
filtered list is non-empty, and run the group loop when the batch call is
truthy. -/
def subsPhase (api : Api) (uid : Nat) (s0 : LoopState) : LoopState :=
  let s1 := { s0 with fetches := s0.fetches ++ [FetchEvent.subscriptions uid] }
  match api.subscriptions uid with
  | none => s1
  | some items =>
    let gids := pageIds items
    if gids = [] then s1
    else
      let s2 := { s1 with fetches := s1.fetches ++ [FetchEvent.groupDetails gids] }
      match api.groupDetails gids with
      | none => s2
      | some ginfo => ginfo.foldl (groupStep uid) s2

/-- One iteration of the while-loop of process_network (lines 144-192):
pop the head of the queue; skip it if already processed or deeper than
max_depth; otherwise mark it processed, bump the counter, break when the
counter exceeds max_nodes; otherwise fetch the detail record, skip on a falsy
result, and otherwise upsert the node and run the followers and subscriptions
blocks. -/
def stepOnce (api : Api) (maxDepth maxNodes : Nat) (s : LoopState) : LoopState :=
  match s.queue with
  | [] => s
  | (uid, level) :: rest =>
    if uid ∈ s.processed ∨ maxDepth < level then
      { s with queue := rest }
    else
      let s1 := { s with
        queue := rest
        processed := uid :: s.processed
        nodeCount := s.nodeCount + 1 }
      if maxNodes < s1.nodeCount then { s1 with halted := true }
      else
        let s2 := { s1 with
          attempts := s1.attempts ++ [(uid, level)]
          fetches := s1.fetches ++ [FetchEvent.userInfo uid] }
        match api.userInfo uid with
        | none => s2
        | some [] => s2
        | some (ud :: _) =>
          let s3 := { s2 with
            expanded := s2.expanded ++ [(uid, level)]
            trace := s2.trace ++ [WriteOp.storeUser ud] }
          subsPhase api uid (followersPhase api uid level s3)

/-- The while-loop of process_network, fuel-indexed: stop on empty queue or
after the budget break; otherwise run one iteration and continue. -/
def runLoop (api : Api) (maxDepth maxNodes : Nat) : Nat → LoopState → LoopState
  | 0, s => s
  | fuel + 1, s =>
    if s.halted then s
    else
      match s.queue with
      | [] => s
      | _ :: _ => runLoop api maxDepth maxNodes fuel (stepOnce api maxDepth maxNodes s)

/-- Initial loop state of process_network(user_id, current_level, ...):
queue seeded with the single pair, empty visited set, zero counter. -/
def initState (seed level : Nat) : LoopState :=
  { queue := [(seed, level)]
    processed := []
    nodeCount := 0
    halted := false
    attempts := []
    expanded := []
    trace := []
    fetches := [] }

/-- process_network(seed, level, maxDepth, maxNodes), run with the given
fuel.  Every reachable state of the Python loop is the value of this function
for some fuel. -/
def processNetwork (api : Api) (seed level maxDepth maxNodes fuel : Nat) : LoopState :=
  runLoop api maxDepth maxNodes fuel (initState seed level)

/-- A graph-database node: the store keeps User and Group nodes keyed by id,
and a User and a Group node with the same id are distinct nodes. -/
inductive NodeRef where
  | user (id : Nat)
  | group (id : Nat)
deriving DecidableEq

/-- A directed relationship between two stored nodes. -/
structure GEdge where
  src : NodeRef
  dst : NodeRef
  typ : RelType
deriving DecidableEq

/-- The Neo4j store contents: User nodes with attributes, Group nodes with
attributes, and the relationship set (kept as an insertion-ordered
duplicate-free list). -/
structure Store where
  users : List (Nat × UserAttrs)
  groups : List (Nat × GroupAttrs)
  edges : List GEdge
deriving DecidableEq

/-- MERGE-by-key on an association list: overwrite the binding in place when
the key exists, append it otherwise. -/
def upsertAssoc {α : Type} (k : Nat) (v : α) : List (Nat × α) → List (Nat × α)
  | [] => [(k, v)]
  | (k1, v1) :: rest =>
    if k1 = k then (k, v) :: rest else (k1, v1) :: upsertAssoc k v rest

/-- First binding of a key in an association list. -/
def lookupAssoc {α : Type} (k : Nat) : List (Nat × α) → Option α
  | [] => none
  | (k1, v1) :: rest => if k1 = k then some v1 else lookupAssoc k rest

/-- Keys of an association list. -/
def keysOf {α : Type} (l : List (Nat × α)) : List Nat := l.map Prod.fst

/-- Nodes matched by the label-free Cypher pattern `(n {id: $id})` used in
create_relationship: both the User node and the Group node carrying this id,
whenever they exist. -/
def matchRefs (st : Store) (id : Nat) : List NodeRef :=
  (if id ∈ keysOf st.users then [NodeRef.user id] else []) ++
  (if id ∈ keysOf st.groups then [NodeRef.group id] else [])

/-- MERGE of a relationship: create it only when absent. -/
def insertEdge (es : List GEdge) (e : GEdge) : List GEdge :=
  if e ∈ es then es else es ++ [e]

/-- Relationships generated by one create_relationship call: one per pair of
nodes matched by the two label-free patterns. -/
def relPairs (st : Store) (f t : Nat) (ty : RelType) : List GEdge :=
  (matchRefs st f).flatMap (fun a => (matchRefs st t).map (fun b => GEdge.mk a b ty))

/-- One write transaction against the store.  store_user and store_group are
MERGE-by-id upserts on their label; create_relationship MATCHes every node
with the given from/to id (no label on the pattern) and MERGEs one
relationship per matched pair, creating nothing when an endpoint is absent. -/
def applyOp (st : Store) : WriteOp → Store
  | WriteOp.storeUser u =>
    { st with users := upsertAssoc u.id (userAttrsOf u) st.users }
  | WriteOp.storeGroup g =>
    { st with groups := upsertAssoc g.id (groupAttrsOf g) st.groups }
  | WriteOp.createRel f t ty =>
    { st with edges := (relPairs st f t ty).foldl insertEdge st.edges }

/-- Apply a sequence of write transactions in order. -/
def applyTrace (st : Store) (ops : List WriteOp) : Store := ops.foldl applyOp st

/-- The store before any run. -/
def emptyStore : Store := { users := [], groups := [], edges := [] }

/-- Store contents after running one crawl on top of an existing store. -/
def crawlStoreFrom (st : Store) (api : Api) (seed level maxDepth maxNodes fuel : Nat) :
    Store :=
  applyTrace st (processNetwork api seed level maxDepth maxNodes fuel).trace

/-- Store contents after one crawl against a fresh store. -/
def crawlStore (api : Api) (seed level maxDepth maxNodes fuel : Nat) : Store :=
  crawlStoreFrom emptyStore api seed level maxDepth maxNodes fuel

/-- Two stores with the same node sets, node attributes and edge set. -/
def StoreEquiv (S T : Store) : Prop :=
  (∀ k, lookupAssoc k S.users = lookupAssoc k T.users) ∧
  (∀ k, lookupAssoc k S.groups = lookupAssoc k T.groups) ∧
  (∀ e, e ∈ S.edges ↔ e ∈ T.edges)

/-- Parsed command-line arguments of the script (parse_arguments). -/
structure Args where
  query : Option String
  limit : Nat
  user_id : Option Nat
  max_depth : Nat
  max_nodes : Nat

/-- Outcome of main: credential failure with an exit code, query mode
dispatch, seed detail fetch failure (crawl never started), or a finished
crawl with its final loop state. -/
inductive MainResult where
  | credentialFailure (exitCode : Nat)
  | queryMode (q : String)
  | seedFetchFailed
  | crawlDone (final : LoopState)
deriving DecidableEq

/-- Python truthiness of `not VK_ACCESS_TOKEN`: the token is missing when
os.getenv returned None or the empty string. -/
def tokenMissing (tok : Option String) : Bool :=
  match tok with
  | none => true
  | some s => s == ""

/-- main (lines 238-287): exit(1) when the token is missing, otherwise
dispatch query mode, otherwise fetch the seed detail (falling back to the
fixed id 185283514 when no user id argument was given) and, if it is truthy,
crawl from the id field of the fetched record at level 0. -/
def mainRun (tok : Option String) (args : Args) (api : Api) (fuel : Nat) : MainResult :=
  if tokenMissing tok then MainResult.credentialFailure 1
  else
    match args.query with
    | some q => MainResult.queryMode q
    | none =>
      let seed0 := args.user_id.getD 185283514
      match api.userInfo seed0 with
      | none => MainResult.seedFetchFailed
      | some [] => MainResult.seedFetchFailed
      | some (ud :: _) =>
        MainResult.crawlDone (processNetwork api ud.id 0 args.max_depth args.max_nodes fuel)

/-- Ids whose user detail was fetched during the run, in fetch order. -/
def attemptIds (s : LoopState) : List Nat := s.attempts.map Prod.fst

/-- Ids that were expanded (detail fetched successfully and written). -/
def expandIds (s : LoopState) : List Nat := s.expanded.map Prod.fst

/-- Writes emitted by the follower loop for a given details list: one upsert
and one FOLLOWS edge for each follower not in the visited set. -/
def followerWrites (uid : Nat) (proc : List Nat) (finfo : List VKUser) : List WriteOp :=
  (finfo.filter (fun f => !decide (f.id ∈ proc))).flatMap
    (fun f => [WriteOp.storeUser f, WriteOp.createRel f.id uid RelType.FOLLOWS])

/-- Queue items enqueued by the follower loop: each fresh follower at the
current level plus one. -/
def followerQueue (level : Nat) (proc : List Nat) (finfo : List VKUser) :
    List (Nat × Nat) :=
  (finfo.filter (fun f => !decide (f.id ∈ proc))).map (fun f => (f.id, level + 1))

/-- Writes emitted by the group loop for a resolved group list. -/
def groupWrites (uid : Nat) (proc : List Nat) (ginfo : List VKGroup) : List WriteOp :=
  (ginfo.filter (fun g => !decide (g.id ∈ proc))).flatMap
    (fun g => [WriteOp.storeGroup g, WriteOp.createRel uid g.id RelType.SUBSCRIBED_TO])

/-- Writes of the whole followers block, given the oracle answers. -/
def fWrites (api : Api) (uid : Nat) (proc : List Nat) : List WriteOp :=
  match api.followers uid with
  | none => []
  | some fids =>
    match api.followersDetails fids with
    | none => []
    | some finfo => followerWrites uid proc finfo

/-- Queue items appended by the whole followers block. -/
def fQueue (api : Api) (uid level : Nat) (proc : List Nat) : List (Nat × Nat) :=
  match api.followers uid with
  | none => []
  | some fids =>
    match api.followersDetails fids with
    | none => []
    | some finfo => followerQueue level proc finfo

/-- API requests of the followers block. -/
def fFetches (api : Api) (uid : Nat) : List FetchEvent :=
  match api.followers uid with
  | none => [FetchEvent.followers uid]
  | some fids => [FetchEvent.followers uid, FetchEvent.followersDetails fids]

/-- Writes of the whole subscriptions block. -/
def sWrites (api : Api) (uid : Nat) (proc : List Nat) : List WriteOp :=
  match api.subscriptions uid with
  | none => []
  | some items =>
    if pageIds items = [] then []
    else
      match api.groupDetails (pageIds items) with
      | none => []
      | some ginfo => groupWrites uid proc ginfo

/-- API requests of the subscriptions block. -/
def sFetches (api : Api) (uid : Nat) : List FetchEvent :=
  match api.subscriptions uid with
  | none => [FetchEvent.subscriptions uid]
  | some items =>
    if pageIds items = [] then [FetchEvent.subscriptions uid]
    else [FetchEvent.subscriptions uid, FetchEvent.groupDetails (pageIds items)]

theorem followerFold_eq (uid level : Nat) :
    ∀ (finfo : List VKUser) (s : LoopState),
      finfo.foldl (followerStep uid level) s =
        { s with
          trace := s.trace ++ followerWrites uid s.processed finfo
          queue := s.queue ++ followerQueue level s.processed finfo } := by
  intro finfo
  induction finfo with
  | nil => intro s; simp [followerWrites, followerQueue]
  | cons f tl ih =>
    intro s
    by_cases h : f.id ∈ s.processed
    · simp only [List.foldl_cons, followerStep, if_pos h]
      rw [ih s]
      simp [followerWrites, followerQueue, List.filter_cons, h]
    · simp only [List.foldl_cons, followerStep, if_neg h]
      rw [ih]
      simp [followerWrites, followerQueue, List.filter_cons, h]

theorem groupFold_eq (uid : Nat) :
    ∀ (ginfo : List VKGroup) (s : LoopState),
      ginfo.foldl (groupStep uid) s =
        { s with trace := s.trace ++ groupWrites uid s.processed ginfo } := by
  intro ginfo
  induction ginfo with
  | nil => intro s; simp [groupWrites]
  | cons g tl ih =>
    intro s
    by_cases h : g.id ∈ s.processed
    · simp only [List.foldl_cons, groupStep, if_pos h]
      rw [ih s]
      simp [groupWrites, List.filter_cons, h]
    · simp only [List.foldl_cons, groupStep, if_neg h]
      rw [ih]
      simp [groupWrites, List.filter_cons, h]

theorem followersPhase_eq (api : Api) (uid level : Nat) (s : LoopState) :
    followersPhase api uid level s =
      { s with
        fetches := s.fetches ++ fFetches api uid
        trace := s.trace ++ fWrites api uid s.processed
        queue := s.queue ++ fQueue api uid level s.processed } := by
  unfold followersPhase fFetches fWrites fQueue
  cases hf : api.followers uid with
  | none => simp
  | some fids =>
    cases hd : api.followersDetails fids with
    | none => simp [hd]
    | some finfo =>
      simp only [hd]
      rw [followerFold_eq]
      simp

theorem subsPhase_eq (api : Api) (uid : Nat) (s : LoopState) :
    subsPhase api uid s =
      { s with
        fetches := s.fetches ++ sFetches api uid
        trace := s.trace ++ sWrites api uid s.processed } := by
  unfold subsPhase sFetches sWrites
  cases hf : api.subscriptions uid with
  | none => simp
  | some items =>
    by_cases hg : pageIds items = []
    · simp [hg]
    · simp only [if_neg hg]
      cases hd : api.groupDetails (pageIds items) with
      | none => simp [hd]
      | some ginfo =>
        simp only [hd]
        rw [groupFold_eq]
        simp

theorem stepOnce_skip (api : Api) (d n : Nat) (s : LoopState) (uid level : Nat)
    (rest : List (Nat × Nat)) (hq : s.queue = (uid, level) :: rest)
    (h : uid ∈ s.processed ∨ d < level) :
    stepOnce api d n s = { s with queue := rest } := by
  unfold stepOnce
  rw [hq]
  simp only [if_pos h]

theorem stepOnce_halt (api : Api) (d n : Nat) (s : LoopState) (uid level : Nat)
    (rest : List (Nat × Nat)) (hq : s.queue = (uid, level) :: rest)
    (hp : uid ∉ s.processed) (hd : ¬ d < level) (hn : n < s.nodeCount + 1) :
    stepOnce api d n s = { s with
      queue := rest
      processed := uid :: s.processed
      nodeCount := s.nodeCount + 1
      halted := true } := by
  unfold stepOnce
  rw [hq]
  simp only [if_neg (not_or.mpr ⟨hp, hd⟩), if_pos hn]

theorem stepOnce_nofetch (api : Api) (d n : Nat) (s : LoopState) (uid level : Nat)
    (rest : List (Nat × Nat)) (hq : s.queue = (uid, level) :: rest)
    (hp : uid ∉ s.processed) (hd : ¬ d < level) (hn : ¬ n < s.nodeCount + 1)
    (hu : api.userInfo uid = none ∨ api.userInfo uid = some []) :
    stepOnce api d n s = { s with
      queue := rest
      processed := uid :: s.processed
      nodeCount := s.nodeCount + 1
      attempts := s.attempts ++ [(uid, level)]
      fetches := s.fetches ++ [FetchEvent.userInfo uid] } := by
  unfold stepOnce
  rw [hq]
  simp only [if_neg (not_or.mpr ⟨hp, hd⟩), if_neg hn]
  rcases hu with hu | hu <;> simp only [hu]

theorem stepOnce_expand (api : Api) (d n : Nat) (s : LoopState) (uid level : Nat)
    (rest : List (Nat × Nat)) (ud : VKUser) (uds : List VKUser)
    (hq : s.queue = (uid, level) :: rest)
    (hp : uid ∉ s.processed) (hd : ¬ d < level) (hn : ¬ n < s.nodeCount + 1)
    (hu : api.userInfo uid = some (ud :: uds)) :
    stepOnce api d n s = { s with
      queue := rest ++ fQueue api uid level (uid :: s.processed)
      processed := uid :: s.processed
      nodeCount := s.nodeCount + 1
      attempts := s.attempts ++ [(uid, level)]
      expanded := s.expanded ++ [(uid, level)]
      trace := s.trace ++ [WriteOp.storeUser ud] ++
        fWrites api uid (uid :: s.processed) ++ sWrites api uid (uid :: s.processed)
      fetches := s.fetches ++ [FetchEvent.userInfo uid] ++
        fFetches api uid ++ sFetches api uid } := by
  unfold stepOnce
  rw [hq]
  simp only [if_neg (not_or.mpr ⟨hp, hd⟩), if_neg hn, hu]
  rw [followersPhase_eq, subsPhase_eq]

theorem runLoop_succ (api : Api) (d n f : Nat) (s : LoopState) :
    runLoop api d n (f + 1) s =
      if s.halted then s
      else
        match s.queue with
        | [] => s
        | _ :: _ => runLoop api d n f (stepOnce api d n s) := rfl

theorem runLoop_halted (api : Api) (d n fuel : Nat) (s : LoopState)
    (h : s.halted = true) : runLoop api d n fuel s = s := by
  cases fuel with
  | zero => rfl
  | succ f => simp [runLoop, h]

theorem runLoop_emptyq (api : Api) (d n fuel : Nat) (s : LoopState)
    (h : s.queue = []) : runLoop api d n fuel s = s := by
  cases fuel with
  | zero => rfl
  | succ f => simp [runLoop, h]

theorem followerWrites_shape (uid : Nat) (proc : List Nat) (finfo : List VKUser) :
    ∀ w ∈ followerWrites uid proc finfo,
      (∃ f, w = WriteOp.storeUser f) ∨
      (∃ f, w = WriteOp.createRel f uid RelType.FOLLOWS) := by
  intro w hw
  simp only [followerWrites, List.mem_flatMap] at hw
  obtain ⟨f, hf, hw⟩ := hw
  simp only [List.mem_cons, List.mem_singleton, List.not_mem_nil, or_false] at hw
  rcases hw with rfl | rfl
  · exact Or.inl ⟨f, rfl⟩
  · exact Or.inr ⟨f.id, rfl⟩

theorem groupWrites_shape (uid : Nat) (proc : List Nat) (ginfo : List VKGroup) :
    ∀ w ∈ groupWrites uid proc ginfo,
      (∃ g, w = WriteOp.storeGroup g) ∨
      (∃ g, w = WriteOp.createRel uid g RelType.SUBSCRIBED_TO) := by
  intro w hw
  simp only [groupWrites, List.mem_flatMap] at hw
  obtain ⟨g, hgm, hw⟩ := hw
  simp only [List.mem_cons, List.mem_singleton, List.not_mem_nil, or_false] at hw
  rcases hw with rfl | rfl
  · exact Or.inl ⟨g, rfl⟩
  · exact Or.inr ⟨g.id, rfl⟩

theorem fQueue_level (api : Api) (uid level : Nat) (proc : List Nat) :
    ∀ x ∈ fQueue api uid level proc, x.2 = level + 1 := by
  intro x hx
  unfold fQueue at hx
  cases hf : api.followers uid with
  | none => simp only [hf] at hx; cases hx
  | some fids =>
    simp only [hf] at hx
    cases hd : api.followersDetails fids with
    | none => simp only [hd] at hx; cases hx
    | some finfo =>
      simp only [hd, followerQueue, List.mem_map] at hx
      obtain ⟨f, hfm, rfl⟩ := hx
      rfl

theorem fWrites_shape (api : Api) (uid : Nat) (proc : List Nat) :
    ∀ w ∈ fWrites api uid proc,
      (∃ f, w = WriteOp.storeUser f) ∨
      (∃ f, w = WriteOp.createRel f uid RelType.FOLLOWS) := by
  intro w hw
  unfold fWrites at hw
  cases hf : api.followers uid with
  | none => simp only [hf] at hw; cases hw
  | some fids =>
    simp only [hf] at hw
    cases hd : api.followersDetails fids with
    | none => simp only [hd] at hw; cases hw
    | some finfo =>
      simp only [hd] at hw
      exact followerWrites_shape uid proc finfo w hw

theorem sWrites_shape (api : Api) (uid : Nat) (proc : List Nat) :
    ∀ w ∈ sWrites api uid proc,
      (∃ g, w = WriteOp.storeGroup g) ∨
      (∃ g, w = WriteOp.createRel uid g RelType.SUBSCRIBED_TO) := by
  intro w hw
  unfold sWrites at hw
  cases hf : api.subscriptions uid with
  | none => simp only [hf] at hw; cases hw
  | some items =>
    simp only [hf] at hw
    by_cases hg : pageIds items = []
    · simp only [if_pos hg] at hw; cases hw
    · simp only [if_neg hg] at hw
      cases hd : api.groupDetails (pageIds items) with
      | none => simp only [hd] at hw; cases hw
      | some ginfo =>
        simp only [hd] at hw
        exact groupWrites_shape uid proc ginfo w hw

theorem followers_mem_fFetches (api : Api) (uid u : Nat) :
    FetchEvent.followers u ∈ fFetches api uid ↔ u = uid := by
  unfold fFetches
  cases api.followers uid <;> simp

theorem subscriptions_not_mem_fFetches (api : Api) (uid u : Nat) :
    FetchEvent.subscriptions u ∉ fFetches api uid := by
  unfold fFetches
  cases api.followers uid <;> simp

theorem subscriptions_mem_sFetches (api : Api) (uid u : Nat) :
    FetchEvent.subscriptions u ∈ sFetches api uid ↔ u = uid := by
  unfold sFetches
  cases api.subscriptions uid with
  | none => simp
  | some items => by_cases hg : pageIds items = [] <;> simp [hg]

theorem followers_not_mem_sFetches (api : Api) (uid u : Nat) :
    FetchEvent.followers u ∉ sFetches api uid := by
  unfold sFetches
  cases api.subscriptions uid with
  | none => simp
  | some items => by_cases hg : pageIds items = [] <;> simp [hg]

/-- Run-wide invariant of the traversal loop.  `attempts`/`expanded` levels
together with the pending queue levels form a non-decreasing sequence, queue
levels span at most two consecutive values, fetch attempts stay within the
depth bound, attempted ids are distinct and visited, the processed counter
tracks the attempt count up to the budget, the follower/subscription fetches
happen exactly for expanded ids, every expanded id has its detail record
written, and an id whose detail call is falsy is never expanded and never
acquires incoming FOLLOWS or outgoing SUBSCRIBED_TO edges. -/
structure Inv (api : Api) (maxDepth maxNodes : Nat) (s : LoopState) : Prop where
  sortedLevels : List.Sorted (· ≤ ·) (s.attempts.map Prod.snd ++ s.queue.map Prod.snd)
  window : ∀ x ∈ s.queue, ∀ y ∈ s.queue, x.2 ≤ y.2 + 1
  depthB : ∀ x ∈ s.attempts, x.2 ≤ maxDepth
  subAtt : List.Sublist s.expanded s.attempts
  nodupA : (s.attempts.map Prod.fst).Nodup
  attProc : ∀ i ∈ s.attempts.map Prod.fst, i ∈ s.processed
  cnt : s.halted = false → s.nodeCount = s.attempts.length ∧ s.nodeCount ≤ maxNodes
  cntH : s.halted = true → s.nodeCount = maxNodes + 1 ∧ s.attempts.length = maxNodes
  procAtt : s.halted = false → ∀ i, i ∈ s.processed ↔ i ∈ s.attempts.map Prod.fst
  fetFol : ∀ u, FetchEvent.followers u ∈ s.fetches ↔ u ∈ s.expanded.map Prod.fst
  fetSub : ∀ u, FetchEvent.subscriptions u ∈ s.fetches ↔ u ∈ s.expanded.map Prod.fst
  expWr : ∀ u ∈ s.expanded.map Prod.fst,
    ∃ ud uds, api.userInfo u = some (ud :: uds) ∧ WriteOp.storeUser ud ∈ s.trace
  badU : ∀ u, (api.userInfo u = none ∨ api.userInfo u = some []) →
    u ∉ s.expanded.map Prod.fst ∧
    (∀ f, WriteOp.createRel f u RelType.FOLLOWS ∉ s.trace) ∧
    (∀ g, WriteOp.createRel u g RelType.SUBSCRIBED_TO ∉ s.trace)

theorem sorted_const (c : Nat) :
    ∀ {m : List Nat}, (∀ a ∈ m, a = c) → List.Sorted (· ≤ ·) m := by
  intro m
  induction m with
  | nil => intro _; exact List.sorted_nil
  | cons a tl ih =>
    intro h
    rw [List.sorted_cons]
    refine ⟨fun b hb => ?_, ih (fun x hx => h x (List.mem_cons_of_mem a hx))⟩
    rw [h a (List.mem_cons_self a tl), h b (List.mem_cons_of_mem a hb)]

theorem inv_init (api : Api) (d n seed level : Nat) :
    Inv api d n (initState seed level) := by
  refine ⟨?_, ?_, ?_, ?_, ?_, ?_, ?_, ?_, ?_, ?_, ?_, ?_, ?_⟩ <;>
    simp [initState, Nat.le_succ]

theorem head_facts (api : Api) (d n : Nat) (s : LoopState) (hI : Inv api d n s)
    (uid level : Nat) (rest : List (Nat × Nat)) (hq : s.queue = (uid, level) :: rest) :
    List.Sorted (· ≤ ·) (s.attempts.map Prod.snd) ∧
    List.Sorted (· ≤ ·) (rest.map Prod.snd) ∧
    (∀ a ∈ s.attempts.map Prod.snd, a ≤ level) ∧
    (∀ b ∈ rest.map Prod.snd, level ≤ b) ∧
    (∀ b ∈ rest.map Prod.snd, b ≤ level + 1) ∧
    List.Sorted (· ≤ ·)
      (s.attempts.map Prod.snd ++ level :: rest.map Prod.snd) := by
  have hsortAll := hI.sortedLevels
  rw [hq] at hsortAll
  simp only [List.map_cons] at hsortAll
  obtain ⟨hsA, hsLR, hAle⟩ := List.pairwise_append.mp hsortAll
  obtain ⟨hlR, hsR⟩ := List.sorted_cons.mp hsLR
  have hhead : ((uid, level) : Nat × Nat) ∈ s.queue := by
    rw [hq]; exact List.mem_cons_self _ _
  refine ⟨hsA, hsR, ?_, hlR, ?_, hsortAll⟩
  · intro a ha
    exact hAle a ha level (List.mem_cons_self _ _)
  · intro b hb
    obtain ⟨y, hy, rfl⟩ := List.mem_map.mp hb
    have hyq : y ∈ s.queue := by rw [hq]; exact List.mem_cons_of_mem _ hy
    exact hI.window y hyq (uid, level) hhead

theorem inv_step_skip (api : Api) (d n : Nat) (s : LoopState) (hI : Inv api d n s)
    (uid level : Nat) (rest : List (Nat × Nat))
    (hq : s.queue = (uid, level) :: rest)
    (hskip : uid ∈ s.processed ∨ d < level) :
    Inv api d n (stepOnce api d n s) := by
  rw [stepOnce_skip api d n s uid level rest hq hskip]
  obtain ⟨hsA, hsR, hAlev, hlR, hRwin, hsortAll⟩ := head_facts api d n s hI uid level rest hq
  have hrestq : ∀ y ∈ rest, y ∈ s.queue := by
    intro y hy; rw [hq]; exact List.mem_cons_of_mem _ hy
  refine ⟨?_, ?_, hI.depthB, hI.subAtt, hI.nodupA, hI.attProc, hI.cnt, hI.cntH,
    hI.procAtt, hI.fetFol, hI.fetSub, hI.expWr, hI.badU⟩
  · exact hsortAll.sublist
      ((List.append_sublist_append_left _).mpr (List.sublist_cons_self _ _))
  · intro x hx y hy
    exact hI.window x (hrestq x hx) y (hrestq y hy)

theorem inv_step_halt (api : Api) (d n : Nat) (s : LoopState) (hI : Inv api d n s)
    (hh : s.halted = false) (uid level : Nat) (rest : List (Nat × Nat))
    (hq : s.queue = (uid, level) :: rest)
    (hp : uid ∉ s.processed) (hd2 : ¬ d < level) (hn : n < s.nodeCount + 1) :
    Inv api d n (stepOnce api d n s) := by
  rw [stepOnce_halt api d n s uid level rest hq hp hd2 hn]
  obtain ⟨hsA, hsR, hAlev, hlR, hRwin, hsortAll⟩ := head_facts api d n s hI uid level rest hq
  have hrestq : ∀ y ∈ rest, y ∈ s.queue := by
    intro y hy; rw [hq]; exact List.mem_cons_of_mem _ hy
  have hcnt := hI.cnt hh
  have hceq : s.nodeCount = n := Nat.le_antisymm hcnt.2 (Nat.lt_succ_iff.mp hn)
  refine ⟨?_, ?_, hI.depthB, hI.subAtt, hI.nodupA, ?_, ?_, ?_, ?_,
    hI.fetFol, hI.fetSub, hI.expWr, hI.badU⟩
  · exact hsortAll.sublist
      ((List.append_sublist_append_left _).mpr (List.sublist_cons_self _ _))
  · intro x hx y hy
    exact hI.window x (hrestq x hx) y (hrestq y hy)
  · intro i hi
    exact List.mem_cons_of_mem _ (hI.attProc i hi)
  · intro h
    simp at h
  · intro _
    show s.nodeCount + 1 = n + 1 ∧ s.attempts.length = n
    have hlen := hcnt.1
    constructor <;> omega
  · intro h
    simp at h

theorem inv_step_nofetch (api : Api) (d n : Nat) (s : LoopState) (hI : Inv api d n s)
    (hh : s.halted = false) (uid level : Nat) (rest : List (Nat × Nat))
    (hq : s.queue = (uid, level) :: rest)
    (hp : uid ∉ s.processed) (hd2 : ¬ d < level) (hn : ¬ n < s.nodeCount + 1)
    (hu : api.userInfo uid = none ∨ api.userInfo uid = some []) :
    Inv api d n (stepOnce api d n s) := by
  rw [stepOnce_nofetch api d n s uid level rest hq hp hd2 hn hu]
  obtain ⟨hsA, hsR, hAlev, hlR, hRwin, hsortAll⟩ := head_facts api d n s hI uid level rest hq
  have hrestq : ∀ y ∈ rest, y ∈ s.queue := by
    intro y hy; rw [hq]; exact List.mem_cons_of_mem _ hy
  have hup : uid ∉ s.attempts.map Prod.fst := fun hmem => hp (hI.attProc uid hmem)
  have hcnt := hI.cnt hh
  refine ⟨?_, ?_, ?_, ?_, ?_, ?_, ?_, ?_, ?_, ?_, ?_, hI.expWr, hI.badU⟩
  · simp only [List.map_append, List.map_cons, List.map_nil]
    rw [← List.append_cons]
    exact hsortAll
  · intro x hx y hy
    exact hI.window x (hrestq x hx) y (hrestq y hy)
  · intro x hx
    rcases List.mem_append.mp hx with hx | hx
    · exact hI.depthB x hx
    · simp only [List.mem_singleton] at hx
      subst hx
      exact Nat.not_lt.mp hd2
  · exact hI.subAtt.trans (List.sublist_append_left _ _)
  · simp only [List.map_append, List.map_cons, List.map_nil]
    rw [List.nodup_append]
    refine ⟨hI.nodupA, by simp, ?_⟩
    intro a ha hb
    simp only [List.mem_singleton] at hb
    subst hb
    exact hup ha
  · intro i hi
    simp only [List.map_append, List.map_cons, List.map_nil, List.mem_append,
      List.mem_singleton] at hi
    rcases hi with hi | hi
    · exact List.mem_cons_of_mem _ (hI.attProc i hi)
    · subst hi; exact List.mem_cons_self _ _
  · intro _
    show s.nodeCount + 1 = (s.attempts ++ [(uid, level)]).length ∧ s.nodeCount + 1 ≤ n
    have hlen := hcnt.1
    have hle := Nat.not_lt.mp hn
    simp only [List.length_append, List.length_cons, List.length_nil]
    omega
  · intro h
    rw [hh] at h
    simp at h
  · intro _ i
    simp only [List.map_append, List.map_cons, List.map_nil, List.mem_append,
      List.mem_singleton, List.mem_cons, List.not_mem_nil, or_false]
    rw [hI.procAtt hh i]
    exact Or.comm
  · intro u
    simp only [List.mem_append, List.mem_singleton]
    rw [hI.fetFol u]
    simp
  · intro u
    simp only [List.mem_append, List.mem_singleton]
    rw [hI.fetSub u]
    simp

theorem inv_step_expand (api : Api) (d n : Nat) (s : LoopState) (hI : Inv api d n s)
    (hh : s.halted = false) (uid level : Nat) (rest : List (Nat × Nat))
    (ud : VKUser) (uds : List VKUser)
    (hq : s.queue = (uid, level) :: rest)
    (hp : uid ∉ s.processed) (hd2 : ¬ d < level) (hn : ¬ n < s.nodeCount + 1)
    (hu : api.userInfo uid = some (ud :: uds)) :
    Inv api d n (stepOnce api d n s) := by
  rw [stepOnce_expand api d n s uid level rest ud uds hq hp hd2 hn hu]
  obtain ⟨hsA, hsR, hAlev, hlR, hRwin, hsortAll⟩ := head_facts api d n s hI uid level rest hq
  have hup : uid ∉ s.attempts.map Prod.fst := fun hmem => hp (hI.attProc uid hmem)
  have hcnt := hI.cnt hh
  have hNQ : ∀ q ∈ (fQueue api uid level (uid :: s.processed)).map Prod.snd,
      q = level + 1 := by
    intro q hq2
    obtain ⟨x, hx, rfl⟩ := List.mem_map.mp hq2
    exact fQueue_level api uid level _ x hx
  refine ⟨?_, ?_, ?_, ?_, ?_, ?_, ?_, ?_, ?_, ?_, ?_, ?_, ?_⟩
  · simp only [List.map_append, List.map_cons, List.map_nil]
    refine List.pairwise_append.mpr ⟨?_, ?_, ?_⟩
    · refine List.pairwise_append.mpr ⟨hsA, by simp, ?_⟩
      intro a ha b hb
      simp only [List.mem_singleton] at hb
      subst hb
      exact hAlev a ha
    · refine List.pairwise_append.mpr ⟨hsR, sorted_const (level + 1) hNQ, ?_⟩
      intro a ha b hb
      rw [hNQ b hb]
      exact hRwin a ha
    · intro a ha b hb
      have hb2 : level ≤ b := by
        rcases List.mem_append.mp hb with hb | hb
        · exact hlR b hb
        · rw [hNQ b hb]; exact Nat.le_succ level
      rcases List.mem_append.mp ha with ha | ha
      · exact Nat.le_trans (hAlev a ha) hb2
      · simp only [List.mem_singleton] at ha
        subst ha
        exact hb2
  · intro x hx y hy
    have hyl : level ≤ y.2 := by
      rcases List.mem_append.mp hy with hy | hy
      · exact hlR y.2 (List.mem_map.mpr ⟨y, hy, rfl⟩)
      · rw [fQueue_level api uid level _ y hy]; exact Nat.le_succ level
    rcases List.mem_append.mp hx with hx | hx
    · have := hRwin x.2 (List.mem_map.mpr ⟨x, hx, rfl⟩)
      omega
    · rw [fQueue_level api uid level _ x hx]
      omega
  · intro x hx
    rcases List.mem_append.mp hx with hx | hx
    · exact hI.depthB x hx
    · simp only [List.mem_singleton] at hx
      subst hx
      exact Nat.not_lt.mp hd2
  · exact hI.subAtt.append (List.Sublist.refl _)
  · simp only [List.map_append, List.map_cons, List.map_nil]
    rw [List.nodup_append]
    refine ⟨hI.nodupA, by simp, ?_⟩
    intro a ha hb
    simp only [List.mem_singleton] at hb
    subst hb
    exact hup ha
  · intro i hi
    simp only [List.map_append, List.map_cons, List.map_nil, List.mem_append,
      List.mem_singleton] at hi
    rcases hi with hi | hi
    · exact List.mem_cons_of_mem _ (hI.attProc i hi)
    · subst hi; exact List.mem_cons_self _ _
  · intro _
    show s.nodeCount + 1 = (s.attempts ++ [(uid, level)]).length ∧ s.nodeCount + 1 ≤ n
    have hlen := hcnt.1
    have hle := Nat.not_lt.mp hn
    simp only [List.length_append, List.length_cons, List.length_nil]
    omega
  · intro h
    rw [hh] at h
    simp at h
  · intro _ i
    simp only [List.map_append, List.map_cons, List.map_nil, List.mem_append,
      List.mem_singleton, List.mem_cons, List.not_mem_nil, or_false]
    rw [hI.procAtt hh i]
    exact Or.comm
  · intro u
    simp only [List.mem_append, List.mem_singleton, List.map_append, List.map_cons,
      List.map_nil]
    rw [hI.fetFol u, followers_mem_fFetches api uid u]
    have := followers_not_mem_sFetches api uid u
    simp [this]
  · intro u
    simp only [List.mem_append, List.mem_singleton, List.map_append, List.map_cons,
      List.map_nil]
    rw [hI.fetSub u, subscriptions_mem_sFetches api uid u]
    have := subscriptions_not_mem_fFetches api uid u
    simp [this]
  · intro u hu2
    simp only [List.map_append, List.map_cons, List.map_nil, List.mem_append,
      List.mem_singleton] at hu2
    rcases hu2 with hu2 | hu2
    · obtain ⟨ud2, uds2, h1, h2⟩ := hI.expWr u hu2
      exact ⟨ud2, uds2, h1, by simp [List.mem_append, h2]⟩
    · subst hu2
      exact ⟨ud, uds, hu, by simp [List.mem_append]⟩
  · intro u hu2
    obtain ⟨h1, h2, h3⟩ := hI.badU u hu2
    have hne : u ≠ uid := by
      intro heq
      subst heq
      rcases hu2 with hu2 | hu2 <;> rw [hu2] at hu <;> cases hu
    refine ⟨?_, ?_, ?_⟩
    · simp only [List.map_append, List.map_cons, List.map_nil, List.mem_append,
        List.mem_singleton]
      intro hmem
      rcases hmem with hmem | hmem
      · exact h1 hmem
      · exact hne hmem
    · intro f hmem
      simp only [List.mem_append, List.mem_singleton] at hmem
      rcases hmem with ((hmem | hmem) | hmem) | hmem
      · exact h2 f hmem
      · cases hmem
      · rcases fWrites_shape api uid _ _ hmem with ⟨f2, hw⟩ | ⟨f2, hw⟩
        · cases hw
        · rw [WriteOp.createRel.injEq] at hw
          exact hne hw.2.1
      · rcases sWrites_shape api uid _ _ hmem with ⟨g2, hw⟩ | ⟨g2, hw⟩
        · cases hw
        · rw [WriteOp.createRel.injEq] at hw
          cases hw.2.2
    · intro g hmem
      simp only [List.mem_append, List.mem_singleton] at hmem
      rcases hmem with ((hmem | hmem) | hmem) | hmem
      · exact h3 g hmem
      · cases hmem
      · rcases fWrites_shape api uid _ _ hmem with ⟨f2, hw⟩ | ⟨f2, hw⟩
        · cases hw
        · rw [WriteOp.createRel.injEq] at hw
          cases hw.2.2
      · rcases sWrites_shape api uid _ _ hmem with ⟨g2, hw⟩ | ⟨g2, hw⟩
        · cases hw
        · rw [WriteOp.createRel.injEq] at hw
          exact hne hw.1

theorem inv_step (api : Api) (d n : Nat) (s : LoopState) (hI : Inv api d n s)
    (hh : s.halted = false) : Inv api d n (stepOnce api d n s) := by
  cases hq : s.queue with
  | nil =>
    unfold stepOnce
    rw [hq]
    exact hI
  | cons x rest =>
    obtain ⟨uid, level⟩ := x
    by_cases hskip : uid ∈ s.processed ∨ d < level
    · exact inv_step_skip api d n s hI uid level rest hq hskip
    · have hp : uid ∉ s.processed := fun hmem => hskip (Or.inl hmem)
      have hd2 : ¬ d < level := fun hlt => hskip (Or.inr hlt)
      by_cases hn : n < s.nodeCount + 1
      · exact inv_step_halt api d n s hI hh uid level rest hq hp hd2 hn
      · cases huo : api.userInfo uid with
        | none => exact inv_step_nofetch api d n s hI hh uid level rest hq hp hd2 hn (Or.inl huo)
        | some l =>
          cases l with
          | nil => exact inv_step_nofetch api d n s hI hh uid level rest hq hp hd2 hn (Or.inr huo)
          | cons ud uds =>
            exact inv_step_expand api d n s hI hh uid level rest ud uds hq hp hd2 hn huo

theorem inv_run (api : Api) (d n : Nat) :
    ∀ (fuel : Nat) (s : LoopState), Inv api d n s → Inv api d n (runLoop api d n fuel s) := by
  intro fuel
  induction fuel with
  | zero => intro s hI; exact hI
  | succ f ih =>
    intro s hI
    cases hh : s.halted with
    | true => rw [runLoop_halted api d n (f + 1) s hh]; exact hI
    | false =>
      rw [runLoop_succ, hh]
      simp only [Bool.false_eq_true, if_false]
      cases hq : s.queue with
      | nil => simp only [hq]; exact hI
      | cons x rest =>
        simp only [hq]
        exact ih (stepOnce api d n s) (inv_step api d n s hI hh)

theorem inv_processNetwork (api : Api) (seed level d n fuel : Nat) :
    Inv api d n (processNetwork api seed level d n fuel) :=
  inv_run api d n fuel (initState seed level) (inv_init api d n seed level)

/-- A helper user record with a given id, used by the concrete scenarios. -/
def mkUser (i : Nat) : VKUser :=
  { id := i, first_name := "u", last_name := "v", sex := 1, screen_name := "s",
    home_town := "h", city_title := "c" }

/-- A helper group record with a given id. -/
def mkGroup (i : Nat) : VKGroup :=
  { id := i, name := "g", screen_name := "gs" }

/-- Oracle for the FIFO scenario: seed 1 has followers 2 then 3, follower 2
has followers 4 and 5, follower 3 has followers 6 and 7, nobody subscribes
to anything. -/
def apiFifo : Api :=
  { userInfo := fun i => some [mkUser i]
    followers := fun i =>
      if i = 1 then some [2, 3]
      else if i = 2 then some [4, 5]
      else if i = 3 then some [6, 7]
      else none
    followersDetails := fun ids => some (ids.map mkUser)
    subscriptions := fun _ => none
    groupDetails := fun _ => none }

/-- Oracle for the depth scenario: seed 1 has the single follower 2. -/
def apiDepth : Api :=
  { userInfo := fun i => some [mkUser i]
    followers := fun i => if i = 1 then some [2] else none
    followersDetails := fun ids => some (ids.map mkUser)
    subscriptions := fun _ => none
    groupDetails := fun _ => none }

/-- Oracle where the detail fetch for user 2 fails while 2 is a follower of
the seed, and 3 is a later follower whose expansion must still happen. -/
def apiSkipFail : Api :=
  { userInfo := fun i => if i = 2 then none else some [mkUser i]
    followers := fun i => if i = 1 then some [2, 3] else none
    followersDetails := fun ids => some (ids.map mkUser)
    subscriptions := fun _ => none
    groupDetails := fun _ => none }

/-- Oracle where both the seed 1 and its follower 2 subscribe to the same
page-typed group 100. -/
def apiGroupDup : Api :=
  { userInfo := fun i => some [mkUser i]
    followers := fun i => if i = 1 then some [2] else none
    followersDetails := fun ids => some (ids.map mkUser)
    subscriptions := fun i =>
      if i = 1 ∨ i = 2 then some [{ id := 100, type := "page" }] else none
    groupDetails := fun ids => some (ids.map mkGroup) }

/-- Oracle where follower 2 subscribes to a page whose group id 1 equals the
already-visited seed user id. -/
def apiGroupVisited : Api :=
  { userInfo := fun i => some [mkUser i]
    followers := fun i => if i = 1 then some [2] else none
    followersDetails := fun ids => some (ids.map mkUser)
    subscriptions := fun i =>
      if i = 2 then some [{ id := 1, type := "page" }] else none
    groupDetails := fun ids => some (ids.map mkGroup) }

/-- Oracle where the followers fetch of the seed fails but its subscriptions
resolve to the page-typed group 100. -/
def apiFolFail : Api :=
  { userInfo := fun i => some [mkUser i]
    followers := fun _ => none
    followersDetails := fun _ => none
    subscriptions := fun i =>
      if i = 1 then some [{ id := 100, type := "page" }] else none
    groupDetails := fun ids => some (ids.map mkGroup) }

/-- Oracle where the followers fetch succeeds but the batch details fetch
fails, while subscriptions still resolve to group 100. -/
def apiFolDetFail : Api :=
  { userInfo := fun i => some [mkUser i]
    followers := fun i => if i = 1 then some [2] else none
    followersDetails := fun _ => none
    subscriptions := fun i =>
      if i = 1 then some [{ id := 100, type := "page" }] else none
    groupDetails := fun ids => some (ids.map mkGroup) }

/-- Oracle where the seed 1 has follower 5 and also subscribes to a page
whose group id is the same number 5: the store then carries both a User node
and a Group node with id 5. -/
def apiCollide : Api :=
  { userInfo := fun i => some [mkUser i]
    followers := fun i => if i = 1 then some [5] else none
    followersDetails := fun ids => some (ids.map mkUser)
    subscriptions := fun i =>
      if i = 1 then some [{ id := 5, type := "page" }] else none
    groupDetails := fun ids => some (ids.map mkGroup) }

/-- Oracle like apiCollide but with a group id 7 that collides with no user
id. -/
def apiNoCollide : Api :=
  { userInfo := fun i => some [mkUser i]
    followers := fun i => if i = 1 then some [5] else none
    followersDetails := fun ids => some (ids.map mkUser)
    subscriptions := fun i =>
      if i = 1 then some [{ id := 7, type := "page" }] else none
    groupDetails := fun ids => some (ids.map mkGroup) }

/-- Ids of the user records upserted by a write sequence, in order. -/
def userIdsOf : List WriteOp → List Nat
  | [] => []
  | WriteOp.storeUser u :: rest => u.id :: userIdsOf rest
  | _ :: rest => userIdsOf rest

/-- Ids of the group records upserted by a write sequence, in order. -/
def groupIdsOf : List WriteOp → List Nat
  | [] => []
  | WriteOp.storeGroup g :: rest => g.id :: groupIdsOf rest
  | _ :: rest => groupIdsOf rest

/-- A write sequence is good relative to already-present user and group ids
when every relationship creation names endpoints that were upserted
earlier. -/
def goodTrace : List Nat → List Nat → List WriteOp → Bool
  | _, _, [] => true
  | us, gs, WriteOp.storeUser u :: rest => goodTrace (u.id :: us) gs rest
  | us, gs, WriteOp.storeGroup g :: rest => goodTrace us (g.id :: gs) rest
  | us, gs, WriteOp.createRel f t _ :: rest =>
    (decide (f ∈ us) || decide (f ∈ gs)) &&
      ((decide (t ∈ us) || decide (t ∈ gs)) && goodTrace us gs rest)

/-- No id is upserted both as a user and as a group by the sequence. -/
def disjointIds (W : List WriteOp) : Bool :=
  (userIdsOf W).all (fun k => !decide (k ∈ groupIdsOf W))

theorem keys_upsert {α : Type} (k a : Nat) (v : α) :
    ∀ (l : List (Nat × α)),
      a ∈ keysOf (upsertAssoc k v l) ↔ a = k ∨ a ∈ keysOf l := by
  intro l
  induction l with
  | nil => simp [upsertAssoc, keysOf]
  | cons p rest ih =>
    obtain ⟨k1, v1⟩ := p
    by_cases hk : k1 = k
    · subst hk
      simp [upsertAssoc, keysOf]
    · simp only [upsertAssoc, if_neg hk, keysOf, List.map_cons, List.mem_cons]
      simp only [keysOf] at ih
      rw [ih]
      tauto

theorem lookup_upsert {α : Type} (k a : Nat) (v : α) :
    ∀ (l : List (Nat × α)),
      lookupAssoc a (upsertAssoc k v l) =
        if a = k then some v else lookupAssoc a l := by
  intro l
  induction l with
  | nil =>
    by_cases h : a = k
    · subst h; simp [upsertAssoc, lookupAssoc]
    · have h2 : ¬ k = a := fun heq => h heq.symm
      simp [upsertAssoc, lookupAssoc, h, h2]
  | cons p rest ih =>
    obtain ⟨k1, v1⟩ := p
    by_cases hk : k1 = k
    · subst hk
      by_cases h : a = k1
      · subst h; simp [upsertAssoc, lookupAssoc]
      · have h2 : ¬ k1 = a := fun heq => h heq.symm
        simp [upsertAssoc, lookupAssoc, h, h2]
    · by_cases h1 : k1 = a
      · subst h1
        simp [upsertAssoc, lookupAssoc, hk]
      · simp [upsertAssoc, lookupAssoc, hk, h1, ih]

theorem keys_users_applyTrace (W : List WriteOp) :
    ∀ (S : Store) (k : Nat),
      k ∈ keysOf (applyTrace S W).users ↔
        k ∈ keysOf S.users ∨ k ∈ userIdsOf W := by
  induction W with
  | nil => intro S k; simp [applyTrace, userIdsOf]
  | cons op rest ih =>
    intro S k
    have hstep : applyTrace S (op :: rest) = applyTrace (applyOp S op) rest := rfl
    rw [hstep]
    rw [ih (applyOp S op) k]
    cases op with
    | storeUser u =>
      simp only [applyOp, userIdsOf, List.mem_cons]
      rw [keys_upsert]
      tauto
    | storeGroup g => simp only [applyOp, userIdsOf]
    | createRel f t ty => simp only [applyOp, userIdsOf]

theorem keys_groups_applyTrace (W : List WriteOp) :
    ∀ (S : Store) (k : Nat),
      k ∈ keysOf (applyTrace S W).groups ↔
        k ∈ keysOf S.groups ∨ k ∈ groupIdsOf W := by
  induction W with
  | nil => intro S k; simp [applyTrace, groupIdsOf]
  | cons op rest ih =>
    intro S k
    have hstep : applyTrace S (op :: rest) = applyTrace (applyOp S op) rest := rfl
    rw [hstep]
    rw [ih (applyOp S op) k]
    cases op with
    | storeUser u => simp only [applyOp, groupIdsOf]
    | storeGroup g =>
      simp only [applyOp, groupIdsOf, List.mem_cons]
      rw [keys_upsert]
      tauto
    | createRel f t ty => simp only [applyOp, groupIdsOf]

theorem mem_insertEdge_iff (e x : GEdge) (es : List GEdge) :
    e ∈ insertEdge es x ↔ e ∈ es ∨ e = x := by
  unfold insertEdge
  by_cases h : x ∈ es
  · rw [if_pos h]
    constructor
    · exact Or.inl
    · intro hor
      rcases hor with hor | hor
      · exact hor
      · subst hor; exact h
  · rw [if_neg h]
    simp

theorem mem_foldl_insertEdge (e : GEdge) :
    ∀ (l : List GEdge) (es : List GEdge),
      e ∈ l.foldl insertEdge es ↔ e ∈ es ∨ e ∈ l := by
  intro l
  induction l with
  | nil => intro es; simp
  | cons a tl ih =>
    intro es
    simp only [List.foldl_cons]
    rw [ih (insertEdge es a), mem_insertEdge_iff]
    simp [List.mem_cons]
    tauto

theorem edges_applyOp_mono (S : Store) (op : WriteOp) (e : GEdge)
    (h : e ∈ S.edges) : e ∈ (applyOp S op).edges := by
  cases op with
  | storeUser u => exact h
  | storeGroup g => exact h
  | createRel f t ty =>
    simp only [applyOp]
    rw [mem_foldl_insertEdge]
    exact Or.inl h

theorem edges_applyTrace_mono (W : List WriteOp) :
    ∀ (S : Store) (e : GEdge), e ∈ S.edges → e ∈ (applyTrace S W).edges := by
  induction W with
  | nil => intro S e h; exact h
  | cons op rest ih =>
    intro S e h
    exact ih (applyOp S op) e (edges_applyOp_mono S op e h)

/-- The attribute record of the last upsert of user id k in a write
sequence, if any. -/
def lastUser (k : Nat) : List WriteOp → Option UserAttrs
  | [] => none
  | WriteOp.storeUser u :: rest =>
    match lastUser k rest with
    | some v => some v
    | none => if u.id = k then some (userAttrsOf u) else none
  | _ :: rest => lastUser k rest

/-- The attribute record of the last upsert of group id k. -/
def lastGroup (k : Nat) : List WriteOp → Option GroupAttrs
  | [] => none
  | WriteOp.storeGroup g :: rest =>
    match lastGroup k rest with
    | some v => some v
    | none => if g.id = k then some (groupAttrsOf g) else none
  | _ :: rest => lastGroup k rest

theorem lookup_users_applyTrace (k : Nat) (W : List WriteOp) :
    ∀ (S : Store),
      lookupAssoc k (applyTrace S W).users =
        match lastUser k W with
        | some v => some v
        | none => lookupAssoc k S.users := by
  induction W with
  | nil => intro S; rfl
  | cons op rest ih =>
    intro S
    have hstep : applyTrace S (op :: rest) = applyTrace (applyOp S op) rest := rfl
    rw [hstep, ih (applyOp S op)]
    cases op with
    | storeUser u =>
      simp only [applyOp, lastUser]
      cases lastUser k rest with
      | some v => rfl
      | none =>
        simp only []
        rw [lookup_upsert]
        by_cases h : u.id = k
        · rw [if_pos h, if_pos h.symm]
        · rw [if_neg h, if_neg (fun heq : k = u.id => h heq.symm)]
    | storeGroup g => rfl
    | createRel f t ty => rfl

theorem lookup_groups_applyTrace (k : Nat) (W : List WriteOp) :
    ∀ (S : Store),
      lookupAssoc k (applyTrace S W).groups =
        match lastGroup k W with
        | some v => some v
        | none => lookupAssoc k S.groups := by
  induction W with
  | nil => intro S; rfl
  | cons op rest ih =>
    intro S
    have hstep : applyTrace S (op :: rest) = applyTrace (applyOp S op) rest := rfl
    rw [hstep, ih (applyOp S op)]
    cases op with
    | storeUser u => rfl
    | storeGroup g =>
      simp only [applyOp, lastGroup]
      cases lastGroup k rest with
      | some v => rfl
      | none =>
        simp only []
        rw [lookup_upsert]
        by_cases h : g.id = k
        · rw [if_pos h, if_pos h.symm]
        · rw [if_neg h, if_neg (fun heq : k = g.id => h heq.symm)]
    | createRel f t ty => rfl

theorem applyOp_storeUser_users (S : Store) (u : VKUser) :
    (applyOp S (WriteOp.storeUser u)).users =
      upsertAssoc u.id (userAttrsOf u) S.users := rfl

theorem applyOp_createRel_edges (S : Store) (f t : Nat) (ty : RelType) :
    (applyOp S (WriteOp.createRel f t ty)).edges =
      (relPairs S f t ty).foldl insertEdge S.edges := rfl

theorem matchRefs_user (st : Store) (f : Nat) (h1 : f ∈ keysOf st.users)
    (h2 : f ∉ keysOf st.groups) : matchRefs st f = [NodeRef.user f] := by
  unfold matchRefs
  rw [if_pos h1, if_neg h2]
  rfl

theorem matchRefs_group (st : Store) (f : Nat) (h1 : f ∉ keysOf st.users)
    (h2 : f ∈ keysOf st.groups) : matchRefs st f = [NodeRef.group f] := by
  unfold matchRefs
  rw [if_neg h1, if_pos h2]
  rfl

/-- Replaying a good write sequence on a store that already has the final
node keys and all of the edges the sequence creates leaves the edge set
untouched, provided user ids and group ids do not collide.  `A` is the store
at the corresponding point of the first run, `B` the store the replay runs
against. -/
theorem replay_edges_stable (U G : List Nat) (hUG : ∀ k, k ∈ U → k ∉ G) :
    ∀ (W : List WriteOp) (us gs : List Nat) (A B : Store),
      goodTrace us gs W = true →
      (∀ k, k ∈ us → k ∈ keysOf A.users) →
      (∀ k, k ∈ gs → k ∈ keysOf A.groups) →
      (∀ k, k ∈ keysOf A.users → k ∈ U) →
      (∀ k, k ∈ keysOf A.groups → k ∈ G) →
      (∀ x, x ∈ userIdsOf W → x ∈ U) →
      (∀ x, x ∈ groupIdsOf W → x ∈ G) →
      (∀ k, k ∈ keysOf B.users ↔ k ∈ U) →
      (∀ k, k ∈ keysOf B.groups ↔ k ∈ G) →
      (∀ e, e ∈ (applyTrace A W).edges → e ∈ B.edges) →
      (applyTrace B W).edges = B.edges := by
  intro W
  induction W with
  | nil =>
    intro us gs A B _ _ _ _ _ _ _ _ _ _
    rfl
  | cons op rest ih =>
    intro us gs A B hgood husA hgsA hAU hAG hWU hWG hBU hBG hedge
    cases op with
    | storeUser u =>
      have huU : u.id ∈ U := hWU u.id (by simp [userIdsOf])
      have htr : applyTrace B (WriteOp.storeUser u :: rest) =
          applyTrace (applyOp B (WriteOp.storeUser u)) rest := rfl
      have hBe : (applyOp B (WriteOp.storeUser u)).edges = B.edges := rfl
      rw [htr, ← hBe]
      apply ih (u.id :: us) gs (applyOp A (WriteOp.storeUser u))
        (applyOp B (WriteOp.storeUser u)) hgood
      · intro k hk
        show k ∈ keysOf (upsertAssoc u.id (userAttrsOf u) A.users)
        rw [keys_upsert]
        rcases List.mem_cons.mp hk with hk | hk
        · exact Or.inl hk
        · exact Or.inr (husA k hk)
      · intro k hk
        exact hgsA k hk
      · intro k hk
        rw [applyOp_storeUser_users, keys_upsert] at hk
        rcases hk with hk | hk
        · subst hk; exact huU
        · exact hAU k hk
      · intro k hk
        exact hAG k hk
      · intro x hx
        exact hWU x (List.mem_cons_of_mem _ hx)
      · intro x hx
        exact hWG x hx
      · intro k
        rw [applyOp_storeUser_users, keys_upsert]
        constructor
        · intro hk
          rcases hk with hk | hk
          · subst hk; exact huU
          · exact (hBU k).mp hk
        · intro hk
          exact Or.inr ((hBU k).mpr hk)
      · intro k
        exact hBG k
      · intro e he
        exact hedge e he
    | storeGroup g =>
      have hgG : g.id ∈ G := hWG g.id (by simp [groupIdsOf])
      have htr : applyTrace B (WriteOp.storeGroup g :: rest) =
          applyTrace (applyOp B (WriteOp.storeGroup g)) rest := rfl
      have hBe : (applyOp B (WriteOp.storeGroup g)).edges = B.edges := rfl
      rw [htr, ← hBe]
      apply ih us (g.id :: gs) (applyOp A (WriteOp.storeGroup g))
        (applyOp B (WriteOp.storeGroup g)) hgood
      · intro k hk
        exact husA k hk
      · intro k hk
        show k ∈ keysOf (upsertAssoc g.id (groupAttrsOf g) A.groups)
        rw [keys_upsert]
        rcases List.mem_cons.mp hk with hk | hk
        · exact Or.inl hk
        · exact Or.inr (hgsA k hk)
      · intro k hk
        exact hAU k hk
      · intro k hk
        have hk2 : k ∈ keysOf (upsertAssoc g.id (groupAttrsOf g) A.groups) := hk
        rw [keys_upsert] at hk2
        rcases hk2 with hk2 | hk2
        · subst hk2; exact hgG
        · exact hAG k hk2
      · intro x hx
        exact hWU x hx
      · intro x hx
        exact hWG x (List.mem_cons_of_mem _ hx)
      · intro k
        exact hBU k
      · intro k
        show k ∈ keysOf (upsertAssoc g.id (groupAttrsOf g) B.groups) ↔ k ∈ G
        rw [keys_upsert]
        constructor
        · intro hk
          rcases hk with hk | hk
          · subst hk; exact hgG
          · exact (hBG k).mp hk
        · intro hk
          exact Or.inr ((hBG k).mpr hk)
      · intro e he
        exact hedge e he
    | createRel f t ty =>
      have hgood2 : (f ∈ us ∨ f ∈ gs) ∧ (t ∈ us ∨ t ∈ gs) ∧
          goodTrace us gs rest = true := by
        have hg : ((decide (f ∈ us) || decide (f ∈ gs)) &&
            ((decide (t ∈ us) || decide (t ∈ gs)) && goodTrace us gs rest)) = true :=
          hgood
        simp only [Bool.and_eq_true, Bool.or_eq_true, decide_eq_true_eq] at hg
        exact ⟨hg.1, hg.2.1, hg.2.2⟩
      have href : ∀ z, (z ∈ us ∨ z ∈ gs) →
          ∃ r, matchRefs A z = [r] ∧ matchRefs B z = [r] := by
        intro z hz
        rcases hz with hz | hz
        · have hzA : z ∈ keysOf A.users := husA z hz
          have hzU : z ∈ U := hAU z hzA
          have hzG : z ∉ G := hUG z hzU
          have hzAg : z ∉ keysOf A.groups := fun hm => hzG (hAG z hm)
          have hzB : z ∈ keysOf B.users := (hBU z).mpr hzU
          have hzBg : z ∉ keysOf B.groups := fun hm => hzG ((hBG z).mp hm)
          exact ⟨NodeRef.user z, matchRefs_user A z hzA hzAg,
            matchRefs_user B z hzB hzBg⟩
        · have hzA : z ∈ keysOf A.groups := hgsA z hz
          have hzG : z ∈ G := hAG z hzA
          have hzU : z ∉ U := fun hm => hUG z hm hzG
          have hzAu : z ∉ keysOf A.users := fun hm => hzU (hAU z hm)
          have hzB : z ∈ keysOf B.groups := (hBG z).mpr hzG
          have hzBu : z ∉ keysOf B.users := fun hm => hzU ((hBU z).mp hm)
          exact ⟨NodeRef.group z, matchRefs_group A z hzAu hzA,
            matchRefs_group B z hzBu hzB⟩
      obtain ⟨rf, hrfA, hrfB⟩ := href f hgood2.1
      obtain ⟨rt, hrtA, hrtB⟩ := href t hgood2.2.1
      have hpairsA : relPairs A f t ty = [GEdge.mk rf rt ty] := by
        simp [relPairs, hrfA, hrtA]
      have hpairsB : relPairs B f t ty = [GEdge.mk rf rt ty] := by
        simp [relPairs, hrfB, hrtB]
      have he0A : GEdge.mk rf rt ty ∈ (applyOp A (WriteOp.createRel f t ty)).edges := by
        rw [applyOp_createRel_edges, hpairsA, mem_foldl_insertEdge]
        simp
      have he0B : GEdge.mk rf rt ty ∈ B.edges := by
        apply hedge
        have htrA : applyTrace A (WriteOp.createRel f t ty :: rest) =
            applyTrace (applyOp A (WriteOp.createRel f t ty)) rest := rfl
        rw [htrA]
        exact edges_applyTrace_mono rest _ _ he0A
      have hBe : (applyOp B (WriteOp.createRel f t ty)).edges = B.edges := by
        rw [applyOp_createRel_edges, hpairsB]
        simp only [List.foldl_cons, List.foldl_nil, insertEdge, if_pos he0B]
      have htr : applyTrace B (WriteOp.createRel f t ty :: rest) =
          applyTrace (applyOp B (WriteOp.createRel f t ty)) rest := rfl
      rw [htr, ← hBe]
      apply ih us gs (applyOp A (WriteOp.createRel f t ty))
        (applyOp B (WriteOp.createRel f t ty)) hgood2.2.2
      · intro k hk
        exact husA k hk
      · intro k hk
        exact hgsA k hk
      · intro k hk
        exact hAU k hk
      · intro k hk
        exact hAG k hk
      · intro x hx
        exact hWU x hx
      · intro x hx
        exact hWG x hx
      · intro k
        exact hBU k
      · intro k
        exact hBG k
      · intro e he
        rw [hBe]
        apply hedge
        exact he

theorem disjointIds_spec (W : List WriteOp) (h : disjointIds W = true) :
    ∀ k, k ∈ userIdsOf W → k ∉ groupIdsOf W := by
  intro k hk
  unfold disjointIds at h
  rw [List.all_eq_true] at h
  have h2 := h k hk
  simpa using h2

/-- Replaying a good, collision-free write sequence on its own resulting
store yields an equivalent store. -/
theorem trace_replay_equiv (W : List WriteOp)
    (hg : goodTrace [] [] W = true) (hd : disjointIds W = true) :
    StoreEquiv (applyTrace (applyTrace emptyStore W) W) (applyTrace emptyStore W) := by
  have hUG := disjointIds_spec W hd
  have hedges : (applyTrace (applyTrace emptyStore W) W).edges =
      (applyTrace emptyStore W).edges := by
    apply replay_edges_stable (userIdsOf W) (groupIdsOf W) hUG W [] []
      emptyStore (applyTrace emptyStore W) hg
    · intro k hk; cases hk
    · intro k hk; cases hk
    · intro k hk; simp [emptyStore, keysOf] at hk
    · intro k hk; simp [emptyStore, keysOf] at hk
    · intro x hx; exact hx
    · intro x hx; exact hx
    · intro k
      rw [keys_users_applyTrace W emptyStore k]
      simp [emptyStore, keysOf]
    · intro k
      rw [keys_groups_applyTrace W emptyStore k]
      simp [emptyStore, keysOf]
    · intro e he; exact he
  refine ⟨?_, ?_, ?_⟩
  · intro k
    rw [lookup_users_applyTrace k W (applyTrace emptyStore W)]
    cases h : lastUser k W with
    | some v => rw [lookup_users_applyTrace k W emptyStore, h]
    | none => rfl
  · intro k
    rw [lookup_groups_applyTrace k W (applyTrace emptyStore W)]
    cases h : lastGroup k W with
    | some v => rw [lookup_groups_applyTrace k W emptyStore, h]
    | none => rfl
  · intro e
    rw [hedges]

/-- User ids accumulated into the context by a prefix of a trace. -/
def ctxU : List WriteOp → List Nat → List Nat
  | [], us => us
  | WriteOp.storeUser u :: rest, us => ctxU rest (u.id :: us)
  | _ :: rest, us => ctxU rest us

/-- Group ids accumulated into the context by a prefix of a trace. -/
def ctxG : List WriteOp → List Nat → List Nat
  | [], gs => gs
  | WriteOp.storeGroup g :: rest, gs => ctxG rest (g.id :: gs)
  | _ :: rest, gs => ctxG rest gs

theorem goodTrace_append :
    ∀ (t1 t2 : List WriteOp) (us gs : List Nat),
      goodTrace us gs (t1 ++ t2) =
        (goodTrace us gs t1 && goodTrace (ctxU t1 us) (ctxG t1 gs) t2) := by
  intro t1
  induction t1 with
  | nil => intro t2 us gs; simp [goodTrace, ctxU, ctxG]
  | cons op rest ih =>
    intro t2 us gs
    cases op with
    | storeUser u =>
      show goodTrace (u.id :: us) gs (rest ++ t2) = _
      rw [ih]
      rfl
    | storeGroup g =>
      show goodTrace us (g.id :: gs) (rest ++ t2) = _
      rw [ih]
      rfl
    | createRel f t ty =>
      show ((decide (f ∈ us) || decide (f ∈ gs)) &&
          ((decide (t ∈ us) || decide (t ∈ gs)) && goodTrace us gs (rest ++ t2))) = _
      rw [ih]
      show _ = ((decide (f ∈ us) || decide (f ∈ gs)) &&
          ((decide (t ∈ us) || decide (t ∈ gs)) && goodTrace us gs rest) &&
          goodTrace (ctxU rest us) (ctxG rest gs) t2)
      simp [Bool.and_assoc]

theorem ctxU_mono : ∀ (t : List WriteOp) (us : List Nat) (x : Nat),
    x ∈ us → x ∈ ctxU t us := by
  intro t
  induction t with
  | nil => intro us x hx; exact hx
  | cons op rest ih =>
    intro us x hx
    cases op with
    | storeUser u => exact ih (u.id :: us) x (List.mem_cons_of_mem _ hx)
    | storeGroup g => exact ih us x hx
    | createRel f t2 ty => exact ih us x hx

theorem goodTrace_followerWrites (uid : Nat) (proc : List Nat) :
    ∀ (finfo : List VKUser) (us gs : List Nat), uid ∈ us →
      goodTrace us gs (followerWrites uid proc finfo) = true := by
  intro finfo
  induction finfo with
  | nil => intro us gs _; rfl
  | cons f tl ih =>
    intro us gs hu
    by_cases hf : f.id ∈ proc
    · have heq : followerWrites uid proc (f :: tl) = followerWrites uid proc tl := by
        simp [followerWrites, List.filter_cons, hf]
      rw [heq]
      exact ih us gs hu
    · have heq : followerWrites uid proc (f :: tl) =
          WriteOp.storeUser f :: WriteOp.createRel f.id uid RelType.FOLLOWS ::
            followerWrites uid proc tl := by
        simp [followerWrites, List.filter_cons, hf]
      rw [heq]
      show ((decide (f.id ∈ f.id :: us) || decide (f.id ∈ gs)) &&
          ((decide (uid ∈ f.id :: us) || decide (uid ∈ gs)) &&
            goodTrace (f.id :: us) gs (followerWrites uid proc tl))) = true
      rw [ih (f.id :: us) gs (List.mem_cons_of_mem _ hu)]
      simp [hu]

theorem goodTrace_groupWrites (uid : Nat) (proc : List Nat) :
    ∀ (ginfo : List VKGroup) (us gs : List Nat), uid ∈ us →
      goodTrace us gs (groupWrites uid proc ginfo) = true := by
  intro ginfo
  induction ginfo with
  | nil => intro us gs _; rfl
  | cons g tl ih =>
    intro us gs hu
    by_cases hf : g.id ∈ proc
    · have heq : groupWrites uid proc (g :: tl) = groupWrites uid proc tl := by
        simp [groupWrites, List.filter_cons, hf]
      rw [heq]
      exact ih us gs hu
    · have heq : groupWrites uid proc (g :: tl) =
          WriteOp.storeGroup g :: WriteOp.createRel uid g.id RelType.SUBSCRIBED_TO ::
            groupWrites uid proc tl := by
        simp [groupWrites, List.filter_cons, hf]
      rw [heq]
      show ((decide (uid ∈ us) || decide (uid ∈ g.id :: gs)) &&
          ((decide (g.id ∈ us) || decide (g.id ∈ g.id :: gs)) &&
            goodTrace us (g.id :: gs) (groupWrites uid proc tl))) = true
      rw [ih us (g.id :: gs) hu]
      simp [hu]

theorem goodTrace_fWrites (api : Api) (uid : Nat) (proc : List Nat)
    (us gs : List Nat) (hu : uid ∈ us) :
    goodTrace us gs (fWrites api uid proc) = true := by
  unfold fWrites
  cases api.followers uid with
  | none => rfl
  | some fids =>
    show goodTrace us gs
      (match api.followersDetails fids with
        | none => []
        | some finfo => followerWrites uid proc finfo) = true
    cases api.followersDetails fids with
    | none => rfl
    | some finfo => exact goodTrace_followerWrites uid proc finfo us gs hu

theorem goodTrace_sWrites (api : Api) (uid : Nat) (proc : List Nat)
    (us gs : List Nat) (hu : uid ∈ us) :
    goodTrace us gs (sWrites api uid proc) = true := by
  unfold sWrites
  cases api.subscriptions uid with
  | none => rfl
  | some items =>
    show goodTrace us gs
      (if pageIds items = [] then []
        else
          match api.groupDetails (pageIds items) with
          | none => []
          | some ginfo => groupWrites uid proc ginfo) = true
    by_cases hgp : pageIds items = []
    · rw [if_pos hgp]
      rfl
    · rw [if_neg hgp]
      cases api.groupDetails (pageIds items) with
      | none => rfl
      | some ginfo => exact goodTrace_groupWrites uid proc ginfo us gs hu

/-- The VK user-detail contract assumed by the program: the head record of
users.get carries the id it was queried for (spec section 6). -/
def ConsistentApi (api : Api) : Prop :=
  ∀ u ud uds, api.userInfo u = some (ud :: uds) → ud.id = u

theorem goodTrace_step (api : Api) (d n : Nat) (s : LoopState)
    (hc : ConsistentApi api) (hg : goodTrace [] [] s.trace = true) :
    goodTrace [] [] (stepOnce api d n s).trace = true := by
  cases hq : s.queue with
  | nil =>
    unfold stepOnce
    rw [hq]
    exact hg
  | cons x rest =>
    obtain ⟨uid, level⟩ := x
    by_cases hskip : uid ∈ s.processed ∨ d < level
    · rw [stepOnce_skip api d n s uid level rest hq hskip]
      exact hg
    · have hp : uid ∉ s.processed := fun hm => hskip (Or.inl hm)
      have hd2 : ¬ d < level := fun hm => hskip (Or.inr hm)
      by_cases hn : n < s.nodeCount + 1
      · rw [stepOnce_halt api d n s uid level rest hq hp hd2 hn]
        exact hg
      · cases huo : api.userInfo uid with
        | none =>
          rw [stepOnce_nofetch api d n s uid level rest hq hp hd2 hn (Or.inl huo)]
          exact hg
        | some l =>
          cases l with
          | nil =>
            rw [stepOnce_nofetch api d n s uid level rest hq hp hd2 hn (Or.inr huo)]
            exact hg
          | cons ud uds =>
            rw [stepOnce_expand api d n s uid level rest ud uds hq hp hd2 hn huo]
            have hid : ud.id = uid := hc uid ud uds huo
            show goodTrace [] [] (s.trace ++ [WriteOp.storeUser ud] ++
              fWrites api uid (uid :: s.processed) ++
              sWrites api uid (uid :: s.processed)) = true
            rw [List.append_assoc, List.append_assoc, goodTrace_append, hg,
              Bool.true_and]
            show goodTrace (ud.id :: ctxU s.trace []) (ctxG s.trace [])
              (fWrites api uid (uid :: s.processed) ++
                sWrites api uid (uid :: s.processed)) = true
            rw [goodTrace_append,
              goodTrace_fWrites api uid _ _ _
                (by rw [hid]; exact List.mem_cons_self _ _),
              Bool.true_and]
            apply goodTrace_sWrites
            apply ctxU_mono
            rw [hid]
            exact List.mem_cons_self _ _

theorem goodTrace_run (api : Api) (d n : Nat) (hc : ConsistentApi api) :
    ∀ (fuel : Nat) (s : LoopState), goodTrace [] [] s.trace = true →
      goodTrace [] [] (runLoop api d n fuel s).trace = true := by
  intro fuel
  induction fuel with
  | zero => intro s hg; exact hg
  | succ f ih =>
    intro s hg
    cases hh : s.halted with
    | true => rw [runLoop_halted api d n (f + 1) s hh]; exact hg
    | false =>
      rw [runLoop_succ, hh]
      simp only [Bool.false_eq_true, if_false]
      cases hq : s.queue with
      | nil => simp only [hq]; exact hg
      | cons x rest =>
        simp only [hq]
        exact ih (stepOnce api d n s) (goodTrace_step api d n s hc hg)

theorem goodTrace_processNetwork (api : Api) (hc : ConsistentApi api)
    (seed level d n fuel : Nat) :
    goodTrace [] [] (processNetwork api seed level d n fuel).trace = true :=
  goodTrace_run api d n hc fuel (initState seed level) rfl

theorem seedFail_writes (api : Api) (seed level d n fuel : Nat)
    (hu : api.userInfo seed = none ∨ api.userInfo seed = some []) :
    (processNetwork api seed level d n fuel).trace = [] ∧
    (processNetwork api seed level d n fuel).expanded = [] := by
  unfold processNetwork
  cases fuel with
  | zero => exact ⟨rfl, rfl⟩
  | succ f =>
    have hstep : (stepOnce api d n (initState seed level)).trace = [] ∧
        (stepOnce api d n (initState seed level)).expanded = [] ∧
        (stepOnce api d n (initState seed level)).queue = [] := by
      by_cases hd3 : d < level
      · rw [stepOnce_skip api d n (initState seed level) seed level [] rfl (Or.inr hd3)]
        exact ⟨rfl, rfl, rfl⟩
      · by_cases hn : n < (initState seed level).nodeCount + 1
        · rw [stepOnce_halt api d n (initState seed level) seed level [] rfl
            (by simp [initState]) hd3 hn]
          exact ⟨rfl, rfl, rfl⟩
        · rw [stepOnce_nofetch api d n (initState seed level) seed level [] rfl
            (by simp [initState]) hd3 hn hu]
          exact ⟨rfl, rfl, rfl⟩
    have heq : runLoop api d n (f + 1) (initState seed level) =
        runLoop api d n f (stepOnce api d n (initState seed level)) := rfl
    rw [heq, runLoop_emptyq api d n f _ hstep.2.2]
    exact ⟨hstep.1, hstep.2.1⟩

/-- Claim C1: in every run, every frontier item that gets a detail fetch or
an expansion has level at most maxDepth (a deeper item is discarded before
fetching, writing, or exploring anything), and yet a node first reached at
depth maxDepth + 1 can still be upserted and receive a FollowsEdge during
its depth-maxDepth parent's expansion: in the apiDepth run with maxDepth 0,
user 2 is stored and given the edge 2 -> 1 while never being attempted. -/
theorem C1_depth_bound :
    (∀ (api : Api) (seed level maxDepth maxNodes fuel : Nat),
      (∀ x ∈ (processNetwork api seed level maxDepth maxNodes fuel).attempts,
        x.2 ≤ maxDepth) ∧
      (∀ x ∈ (processNetwork api seed level maxDepth maxNodes fuel).expanded,
        x.2 ≤ maxDepth)) ∧
    (WriteOp.storeUser (mkUser 2) ∈ (processNetwork apiDepth 1 0 0 200 10).trace ∧
      WriteOp.createRel 2 1 RelType.FOLLOWS ∈
        (processNetwork apiDepth 1 0 0 200 10).trace ∧
      2 ∉ attemptIds (processNetwork apiDepth 1 0 0 200 10)) := by
  constructor
  · intro api seed level maxDepth maxNodes fuel
    have hI := inv_processNetwork api seed level maxDepth maxNodes fuel
    exact ⟨fun x hx => hI.depthB x hx, fun x hx => hI.depthB x (hI.subAtt.subset hx)⟩
  · exact ⟨by decide, by decide, by decide⟩

theorem C1_depth_bound_witness :
    (1, 0) ∈ (processNetwork apiDepth 1 0 0 200 10).attempts ∧
    ((1, 0) : Nat × Nat).2 ≤ 0 :=
  ⟨by decide, (C1_depth_bound.1 apiDepth 1 0 0 200 10).1 (1, 0) (by decide)⟩

/-- Claim C2: in every run the number of expanded nodes (and even of
attempted detail fetches) never exceeds maxNodes; when the processed-node
counter exceeds maxNodes (reaching maxNodes + 1) the whole loop stops as a
hard stop: the final state absorbs any further fuel, so frontier items are
never popped again and the writes already in the trace stay. -/
theorem C2_node_budget :
    (∀ (api : Api) (seed level maxDepth maxNodes fuel : Nat),
      (processNetwork api seed level maxDepth maxNodes fuel).expanded.length ≤ maxNodes ∧
      (processNetwork api seed level maxDepth maxNodes fuel).attempts.length ≤ maxNodes) ∧
    (∀ (api : Api) (seed level maxDepth maxNodes fuel fuel2 : Nat),
      (processNetwork api seed level maxDepth maxNodes fuel).halted = true →
      runLoop api maxDepth maxNodes fuel2
          (processNetwork api seed level maxDepth maxNodes fuel) =
        processNetwork api seed level maxDepth maxNodes fuel ∧
      (processNetwork api seed level maxDepth maxNodes fuel).nodeCount = maxNodes + 1) := by
  constructor
  · intro api seed level maxDepth maxNodes fuel
    have hI := inv_processNetwork api seed level maxDepth maxNodes fuel
    have hatt : (processNetwork api seed level maxDepth maxNodes fuel).attempts.length ≤
        maxNodes := by
      cases hh : (processNetwork api seed level maxDepth maxNodes fuel).halted with
      | false => have h2 := hI.cnt hh; omega
      | true => have h2 := hI.cntH hh; omega
    exact ⟨Nat.le_trans (List.Sublist.length_le hI.subAtt) hatt, hatt⟩
  · intro api seed level maxDepth maxNodes fuel fuel2 hh
    have hI := inv_processNetwork api seed level maxDepth maxNodes fuel
    exact ⟨runLoop_halted api maxDepth maxNodes fuel2 _ hh, (hI.cntH hh).1⟩

theorem C2_node_budget_witness :
    (processNetwork apiFifo 1 0 5 2 10).halted = true ∧
    runLoop apiFifo 5 2 7 (processNetwork apiFifo 1 0 5 2 10) =
      processNetwork apiFifo 1 0 5 2 10 ∧
    (processNetwork apiFifo 1 0 5 2 10).nodeCount = 2 + 1 :=
  ⟨by decide, (C2_node_budget.2 apiFifo 1 0 5 2 10 7 (by decide)).1,
    (C2_node_budget.2 apiFifo 1 0 5 2 10 7 (by decide)).2⟩

/-- Claim C3: in every run each id is fetched at most once and expanded at
most once (the attempted and expanded id lists are duplicate-free), and a
popped id that is already visited does not increment the counter: as long as
the budget stop has not fired, the counter equals the number of attempted
fetches. -/
theorem C3_visited_once :
    ∀ (api : Api) (seed level maxDepth maxNodes fuel : Nat),
      (attemptIds (processNetwork api seed level maxDepth maxNodes fuel)).Nodup ∧
      (expandIds (processNetwork api seed level maxDepth maxNodes fuel)).Nodup ∧
      ((processNetwork api seed level maxDepth maxNodes fuel).halted = false →
        (processNetwork api seed level maxDepth maxNodes fuel).nodeCount =
          (processNetwork api seed level maxDepth maxNodes fuel).attempts.length) := by
  intro api seed level maxDepth maxNodes fuel
  have hI := inv_processNetwork api seed level maxDepth maxNodes fuel
  exact ⟨hI.nodupA, hI.nodupA.sublist (hI.subAtt.map Prod.fst),
    fun hh => (hI.cnt hh).1⟩

theorem C3_visited_once_witness :
    (processNetwork apiFifo 1 0 2 100 20).halted = false ∧
    (processNetwork apiFifo 1 0 2 100 20).nodeCount =
      (processNetwork apiFifo 1 0 2 100 20).attempts.length :=
  ⟨by decide, (C3_visited_once apiFifo 1 0 2 100 20).2.2 (by decide)⟩

/-- Claim C4: expansion happens in breadth-first order: in every run the
sequence of levels at which nodes are expanded is non-decreasing, so every
depth-d node is expanded before any depth-(d + 1) node; in the concrete
seed/followers scenario the expansion order is exactly seed 1, followers 2
and 3, then the grandchildren 4, 5, 6, 7. -/
theorem C4_fifo_order :
    (∀ (api : Api) (seed level maxDepth maxNodes fuel : Nat),
      List.Sorted (· ≤ ·)
        ((processNetwork api seed level maxDepth maxNodes fuel).expanded.map Prod.snd)) ∧
    expandIds (processNetwork apiFifo 1 0 2 100 20) = [1, 2, 3, 4, 5, 6, 7] := by
  constructor
  · intro api seed level maxDepth maxNodes fuel
    have hI := inv_processNetwork api seed level maxDepth maxNodes fuel
    have hs : List.Sorted (· ≤ ·)
        ((processNetwork api seed level maxDepth maxNodes fuel).attempts.map Prod.snd) :=
      hI.sortedLevels.sublist (List.sublist_append_left _ _)
    exact hs.sublist (hI.subAtt.map Prod.snd)
  · decide

/-- Claim C5: a frontier item whose detail fetch is falsy is never expanded:
its followers and subscriptions are never fetched, no FollowsEdge into it
and no SubscribedToEdge out of it is ever created by its expansion, the
traversal continues with later frontier items (in the apiSkipFail run the
failing node 2 stays attempted, counted, and visited while node 3 is still
expanded), and when the failing node is the seed the run performs zero
writes. -/
theorem C5_detail_failure :
    (∀ (api : Api) (seed level maxDepth maxNodes fuel u : Nat),
      (api.userInfo u = none ∨ api.userInfo u = some []) →
      u ∉ expandIds (processNetwork api seed level maxDepth maxNodes fuel) ∧
      FetchEvent.followers u ∉
        (processNetwork api seed level maxDepth maxNodes fuel).fetches ∧
      FetchEvent.subscriptions u ∉
        (processNetwork api seed level maxDepth maxNodes fuel).fetches ∧
      (∀ f, WriteOp.createRel f u RelType.FOLLOWS ∉
        (processNetwork api seed level maxDepth maxNodes fuel).trace) ∧
      (∀ g, WriteOp.createRel u g RelType.SUBSCRIBED_TO ∉
        (processNetwork api seed level maxDepth maxNodes fuel).trace)) ∧
    (expandIds (processNetwork apiSkipFail 1 0 1 10 10) = [1, 3] ∧
      attemptIds (processNetwork apiSkipFail 1 0 1 10 10) = [1, 2, 3] ∧
      2 ∈ (processNetwork apiSkipFail 1 0 1 10 10).processed ∧
      (processNetwork apiSkipFail 1 0 1 10 10).nodeCount = 3) ∧
    (∀ (api : Api) (seed level maxDepth maxNodes fuel : Nat),
      (api.userInfo seed = none ∨ api.userInfo seed = some []) →
      (processNetwork api seed level maxDepth maxNodes fuel).trace = []) := by
  refine ⟨?_, ⟨by decide, by decide, by decide, by decide⟩, ?_⟩
  · intro api seed level maxDepth maxNodes fuel u hu
    have hI := inv_processNetwork api seed level maxDepth maxNodes fuel
    obtain ⟨h1, h2, h3⟩ := hI.badU u hu
    refine ⟨h1, ?_, ?_, h2, h3⟩
    · intro hm
      exact h1 ((hI.fetFol u).mp hm)
    · intro hm
      exact h1 ((hI.fetSub u).mp hm)
  · intro api seed level maxDepth maxNodes fuel hu
    exact (seedFail_writes api seed level maxDepth maxNodes fuel hu).1

theorem C5_detail_failure_witness :
    apiSkipFail.userInfo 2 = none ∧
    2 ∉ expandIds (processNetwork apiSkipFail 1 0 1 10 10) ∧
    (processNetwork apiSkipFail 2 0 1 10 10).trace = [] :=
  ⟨by decide,
    (C5_detail_failure.1 apiSkipFail 1 0 1 10 10 2 (Or.inl (by decide))).1,
    C5_detail_failure.2.2 apiSkipFail 2 0 1 10 10 (Or.inl (by decide))⟩

/-- Claim C6 fails on the code: a group written during an expansion is NOT
added to the visited set, so a later occurrence of the same group id is not
suppressed.  In the apiGroupDup run both the seed and its follower subscribe
to page group 100: group 100 is upserted twice, gets a SubscribedToEdge from
both nodes, and never enters the visited set. -/
theorem C6_counterexample :
    (processNetwork apiGroupDup 1 0 1 200 10).trace.count
        (WriteOp.storeGroup (mkGroup 100)) = 2 ∧
    100 ∉ (processNetwork apiGroupDup 1 0 1 200 10).processed ∧
    WriteOp.createRel 1 100 RelType.SUBSCRIBED_TO ∈
      (processNetwork apiGroupDup 1 0 1 200 10).trace ∧
    WriteOp.createRel 2 100 RelType.SUBSCRIBED_TO ∈
      (processNetwork apiGroupDup 1 0 1 200 10).trace :=
  ⟨by decide, by decide, by decide, by decide⟩

/-- Claim C6 amended: a resolved page group not in the visited set is
upserted and edged, and the shared visited set is consulted (a group id
equal to an already-visited user id is suppressed, as the apiGroupVisited
run shows), but the group id is never added to that set: as long as the
budget stop has not fired, the visited set contains exactly the ids popped
from the frontier and fetched, so a later occurrence of the same group id
is processed again. -/
theorem C6_group_handling_amended :
    (∀ (api : Api) (seed level maxDepth maxNodes fuel : Nat),
      (processNetwork api seed level maxDepth maxNodes fuel).halted = false →
      ∀ i, i ∈ (processNetwork api seed level maxDepth maxNodes fuel).processed ↔
        i ∈ attemptIds (processNetwork api seed level maxDepth maxNodes fuel)) ∧
    (WriteOp.storeGroup (mkGroup 1) ∉
        (processNetwork apiGroupVisited 1 0 1 200 10).trace ∧
      WriteOp.createRel 2 1 RelType.SUBSCRIBED_TO ∉
        (processNetwork apiGroupVisited 1 0 1 200 10).trace ∧
      WriteOp.storeGroup (mkGroup 100) ∈
        (processNetwork apiGroupDup 1 0 1 200 10).trace) := by
  constructor
  · intro api seed level maxDepth maxNodes fuel hh
    exact (inv_processNetwork api seed level maxDepth maxNodes fuel).procAtt hh
  · exact ⟨by decide, by decide, by decide⟩

theorem C6_group_handling_amended_witness :
    (processNetwork apiGroupDup 1 0 1 200 10).halted = false ∧
    (100 ∈ (processNetwork apiGroupDup 1 0 1 200 10).processed ↔
      100 ∈ attemptIds (processNetwork apiGroupDup 1 0 1 200 10)) :=
  ⟨by decide, C6_group_handling_amended.1 apiGroupDup 1 0 1 200 10 (by decide) 100⟩

/-- Claim C7: when a frontier item passes the guards and all three follower
fetches succeed, the expansion handles exactly the followers whose id is not
in the visited set (which includes the current node): each of them is
upserted, given a FollowsEdge follower -> current node, and enqueued at
level + 1 in list order, while already-visited followers contribute no write
and no queue item. -/
theorem C7_follower_processing :
    ∀ (api : Api) (maxDepth maxNodes : Nat) (s : LoopState) (uid level : Nat)
      (rest : List (Nat × Nat)) (ud : VKUser) (uds : List VKUser)
      (fids : List Nat) (finfo : List VKUser),
      s.queue = (uid, level) :: rest →
      uid ∉ s.processed → ¬ maxDepth < level → ¬ maxNodes < s.nodeCount + 1 →
      api.userInfo uid = some (ud :: uds) →
      api.followers uid = some fids →
      api.followersDetails fids = some finfo →
      (stepOnce api maxDepth maxNodes s).queue =
        rest ++ (finfo.filter (fun f => !decide (f.id ∈ uid :: s.processed))).map
          (fun f => (f.id, level + 1)) ∧
      (stepOnce api maxDepth maxNodes s).trace =
        s.trace ++ [WriteOp.storeUser ud] ++
          (finfo.filter (fun f => !decide (f.id ∈ uid :: s.processed))).flatMap
            (fun f => [WriteOp.storeUser f,
              WriteOp.createRel f.id uid RelType.FOLLOWS]) ++
          sWrites api uid (uid :: s.processed) := by
  intro api maxDepth maxNodes s uid level rest ud uds fids finfo hq hp hd2 hn hu hfol hdet
  rw [stepOnce_expand api maxDepth maxNodes s uid level rest ud uds hq hp hd2 hn hu]
  constructor
  · show rest ++ fQueue api uid level (uid :: s.processed) = _
    simp only [fQueue, hfol, hdet, followerQueue]
  · show s.trace ++ [WriteOp.storeUser ud] ++ fWrites api uid (uid :: s.processed) ++
      sWrites api uid (uid :: s.processed) = _
    simp only [fWrites, hfol, hdet, followerWrites]

theorem C7_follower_processing_witness :
    (initState 1 0).queue = (1, 0) :: [] ∧
    (stepOnce apiFifo 2 100 (initState 1 0)).queue =
      [] ++ (([mkUser 2, mkUser 3].filter
        (fun f => !decide (f.id ∈ 1 :: (initState 1 0).processed))).map
        (fun f => (f.id, 0 + 1))) :=
  ⟨rfl,
    (C7_follower_processing apiFifo 2 100 (initState 1 0) 1 0 [] (mkUser 1) []
      [2, 3] [mkUser 2, mkUser 3] rfl (by decide) (by decide) (by decide)
      (by decide) (by decide) (by decide)).1⟩

/-- Claim C9: when the access token is absent (None or empty) main exits
with status 1 before any query or traversal work, and with a non-empty token
present this check never fires (the outcome is never a credential
failure). -/
theorem C9_credential_guard :
    (∀ (tok : Option String) (args : Args) (api : Api) (fuel : Nat),
      (tok = none ∨ tok = some "") →
      mainRun tok args api fuel = MainResult.credentialFailure 1) ∧
    (∀ (tok : Option String) (args : Args) (api : Api) (fuel : Nat) (st : String),
      tok = some st → st ≠ "" →
      ∀ c, mainRun tok args api fuel ≠ MainResult.credentialFailure c) := by
  constructor
  · intro tok args api fuel h
    rcases h with h | h <;> subst h <;> rfl
  · intro tok args api fuel st htok hne c
    subst htok
    have hmiss : tokenMissing (some st) = false := by
      simp [tokenMissing]
      exact hne
    unfold mainRun
    rw [hmiss]
    simp only [Bool.false_eq_true, if_false]
    cases hq2 : args.query with
    | some q => simp
    | none =>
      simp only []
      cases hu2 : api.userInfo (args.user_id.getD 185283514) with
      | none => simp [hu2]
      | some l =>
        cases l with
        | nil => simp [hu2]
        | cons ud uds => simp [hu2]

theorem C9_credential_guard_witness :
    mainRun none (Args.mk none 5 none 2 200) apiFifo 5 =
      MainResult.credentialFailure 1 ∧
    mainRun (some "token") (Args.mk none 5 none 2 200) apiFifo 5 ≠
      MainResult.credentialFailure 0 :=
  ⟨C9_credential_guard.1 none (Args.mk none 5 none 2 200) apiFifo 5 (Or.inl rfl),
    C9_credential_guard.2 (some "token") (Args.mk none 5 none 2 200) apiFifo 5
      "token" rfl (by decide) 0⟩

/-- Claim C10: the followers fetch and the subscriptions fetch happen for an
id exactly when that id is expanded (so a detail failure skips both, and a
followers failure does not skip the subscriptions fetch), every expanded
node has its detail record upserted, and in the concrete runs where the
followers fetch or the follower-details fetch fails the node is still
written and its page subscription still produces the group upsert and the
SubscribedToEdge. -/
theorem C10_fetch_independence :
    (∀ (api : Api) (seed level maxDepth maxNodes fuel u : Nat),
      (FetchEvent.followers u ∈
          (processNetwork api seed level maxDepth maxNodes fuel).fetches ↔
        u ∈ expandIds (processNetwork api seed level maxDepth maxNodes fuel)) ∧
      (FetchEvent.subscriptions u ∈
          (processNetwork api seed level maxDepth maxNodes fuel).fetches ↔
        u ∈ expandIds (processNetwork api seed level maxDepth maxNodes fuel)) ∧
      (u ∈ expandIds (processNetwork api seed level maxDepth maxNodes fuel) →
        ∃ ud uds, api.userInfo u = some (ud :: uds) ∧
          WriteOp.storeUser ud ∈
            (processNetwork api seed level maxDepth maxNodes fuel).trace)) ∧
    ((processNetwork apiFolFail 1 0 1 200 10).trace =
        [WriteOp.storeUser (mkUser 1), WriteOp.storeGroup (mkGroup 100),
          WriteOp.createRel 1 100 RelType.SUBSCRIBED_TO] ∧
      (processNetwork apiFolDetFail 1 0 1 200 10).trace =
        [WriteOp.storeUser (mkUser 1), WriteOp.storeGroup (mkGroup 100),
          WriteOp.createRel 1 100 RelType.SUBSCRIBED_TO] ∧
      FetchEvent.followers 1 ∈ (processNetwork apiFolFail 1 0 1 200 10).fetches ∧
      FetchEvent.subscriptions 1 ∈
        (processNetwork apiFolFail 1 0 1 200 10).fetches) := by
  constructor
  · intro api seed level maxDepth maxNodes fuel u
    have hI := inv_processNetwork api seed level maxDepth maxNodes fuel
    exact ⟨hI.fetFol u, hI.fetSub u, hI.expWr u⟩
  · exact ⟨by decide, by decide, by decide, by decide⟩

theorem C10_fetch_independence_witness :
    1 ∈ expandIds (processNetwork apiFolFail 1 0 1 200 10) ∧
    (∃ ud uds, apiFolFail.userInfo 1 = some (ud :: uds) ∧
      WriteOp.storeUser ud ∈ (processNetwork apiFolFail 1 0 1 200 10).trace) :=
  ⟨by decide,
    (C10_fetch_independence.1 apiFolFail 1 0 1 200 10 1).2.2 (by decide)⟩

/-- Claim C8 fails on the code: because create_relationship MATCHes nodes by
id without a label, a group node that shares its numeric id with a stored
user makes the second run of the same crawl create an edge the first run did
not (Group 5 -FOLLOWS-> User 1 here), so running twice differs from running
once. -/
theorem C8_counterexample :
    GEdge.mk (NodeRef.group 5) (NodeRef.user 1) RelType.FOLLOWS ∈
      (crawlStoreFrom (crawlStore apiCollide 1 0 0 200 10)
        apiCollide 1 0 0 200 10).edges ∧
    GEdge.mk (NodeRef.group 5) (NodeRef.user 1) RelType.FOLLOWS ∉
      (crawlStore apiCollide 1 0 0 200 10).edges ∧
    ¬ StoreEquiv
        (crawlStoreFrom (crawlStore apiCollide 1 0 0 200 10)
          apiCollide 1 0 0 200 10)
        (crawlStore apiCollide 1 0 0 200 10) := by
  refine ⟨by decide, by decide, ?_⟩
  intro hE
  have h := (hE.2.2 (GEdge.mk (NodeRef.group 5) (NodeRef.user 1)
    RelType.FOLLOWS)).mp (by decide)
  exact absurd h (by decide)

/-- Claim C8 amended: provided the user-detail records carry the id they
were requested for (the documented API contract) and the run writes no
group node whose id equals a written user node's id, running the same crawl
twice against the same API responses produces the same store contents (node
lookups and edge set) as running it once: upserts are merge-by-id and edge
creation is merge-by-endpoints-and-type. -/
theorem C8_rerun_idempotent :
    ∀ (api : Api) (seed level maxDepth maxNodes fuel : Nat),
      ConsistentApi api →
      disjointIds (processNetwork api seed level maxDepth maxNodes fuel).trace = true →
      StoreEquiv
        (crawlStoreFrom (crawlStore api seed level maxDepth maxNodes fuel)
          api seed level maxDepth maxNodes fuel)
        (crawlStore api seed level maxDepth maxNodes fuel) := by
  intro api seed level maxDepth maxNodes fuel hc hd
  exact trace_replay_equiv (processNetwork api seed level maxDepth maxNodes fuel).trace
    (goodTrace_processNetwork api hc seed level maxDepth maxNodes fuel) hd

theorem consistent_apiNoCollide : ConsistentApi apiNoCollide := by
  intro u ud uds h
  simp only [apiNoCollide] at h
  rw [Option.some.injEq] at h
  injection h with h1 h2
  rw [← h1]
  rfl

theorem C8_rerun_idempotent_witness :
    disjointIds (processNetwork apiNoCollide 1 0 0 200 10).trace = true ∧
    StoreEquiv
      (crawlStoreFrom (crawlStore apiNoCollide 1 0 0 200 10)
        apiNoCollide 1 0 0 200 10)
      (crawlStore apiNoCollide 1 0 0 200 10) :=
  ⟨by decide,
    C8_rerun_idempotent apiNoCollide 1 0 0 200 10 consistent_apiNoCollide (by decide)⟩

end VKCrawl
